import Mathlib

/-!
Verification development for the xlsxzero XLSX-to-text converter.

Each Rust function referenced by the specification is embedded as a Lean
definition over `List Char` / `String` / `Nat` / `Int` / `ℚ` (the source's
`f64` values are modelled as exact rationals; every concrete input used in a
theorem below is exactly representable in `f64` and only exact operations are
applied to it, so the model agrees with the source on those inputs).
Machine-integer types (`u32`, `usize`, `u64`) are modelled as `Nat`; all inputs
appearing in the claims stay far below `2^32`, so wrap-around behaviour is
never exercised.  Rust panics (out-of-bounds indexing) are modelled as `none`
of an `Option`-valued function.
-/

set_option maxRecDepth 8000

namespace XlsxZero

/-! ## Character-list helpers mirroring Rust `str` operations -/

/-- Rust `str::starts_with` with a string pattern (second argument). -/
def strStartsWith : List Char → List Char → Bool
  | _, [] => true
  | [], _ :: _ => false
  | c :: cs, p :: ps => c == p && strStartsWith cs ps

/-- Rust `str::contains` with a substring pattern (second argument). -/
def strContainsSub : List Char → List Char → Bool
  | [], pat => strStartsWith [] pat
  | c :: rest, pat => strStartsWith (c :: rest) pat || strContainsSub rest pat

/-- Rust `str::contains` with a single-character pattern. -/
def strContainsChar (s : List Char) (c : Char) : Bool :=
  s.any (· == c)

theorem strStartsWith_singleton (s : List Char) (c : Char) :
    strStartsWith s [c] = true ↔ s.head? = some c := by
  cases s with
  | nil => simp [strStartsWith]
  | cons a rest =>
    simp only [strStartsWith, Bool.and_eq_true, beq_iff_eq, List.head?_cons,
      Option.some.injEq]
    constructor
    · rintro ⟨h, _⟩
      exact h
    · intro h
      exact ⟨h, trivial⟩

theorem strStartsWith_three (s : List Char) (a b c : Char) :
    strStartsWith s [a, b, c] = true ↔ ∃ rest, s = a :: b :: c :: rest := by
  match s with
  | [] => simp [strStartsWith]
  | [x] => simp [strStartsWith]
  | [x, y] => simp [strStartsWith]
  | x :: y :: z :: rest =>
    simp only [strStartsWith, Bool.and_eq_true, beq_iff_eq, and_true]
    constructor
    · rintro ⟨h1, h2, h3⟩
      exact ⟨rest, by simp [h1, h2, h3]⟩
    · rintro ⟨r, hr⟩
      cases hr
      exact ⟨rfl, rfl, rfl⟩

theorem strContainsChar_of_mem {s : List Char} {c : Char} (h : c ∈ s) :
    strContainsChar s c = true := by
  simp only [strContainsChar, List.any_eq_true, beq_iff_eq]
  exact ⟨c, h, rfl⟩

/-! ## Security gate: `validate_zip_path` (src/security.rs) -/

/-- Embedding of `validate_zip_path` (src/security.rs lines 56-78).  `true`
means the path is accepted (`Ok(())` in the source); `false` means the path is
rejected (the source returns an `Err` message, which the metadata decoder maps
to a `SecurityViolation`; the message text is dropped by this model). -/
def validate_zip_path (path : List Char) : Bool :=
  if path.isEmpty then false
  else if strStartsWith path ['/'] || strStartsWith path ['C', ':', '\\'] ||
      strStartsWith path ['c', ':', '\\'] then false
  else if strContainsSub path ['.', '.'] then false
  else if strContainsChar path '\\' then false
  else true

/-- Rejection predicate transcribed from the specification sentence: the name
is empty, begins with `/`, matches the drive-letter shape (a letter, `:`, `\`)
for any drive letter in either case, contains the substring `..`, or contains
`\`. -/
def specRejectsPath (path : List Char) : Prop :=
  path = [] ∨ path.head? = some '/' ∨
    (∃ c rest, path = c :: ':' :: '\\' :: rest ∧ c.isAlpha = true) ∨
    strContainsSub path ['.', '.'] = true ∨ strContainsChar path '\\' = true

theorem validate_zip_path_false_iff (path : List Char) :
    validate_zip_path path = false ↔
      (path.isEmpty = true ∨ strStartsWith path ['/'] = true ∨
        strStartsWith path ['C', ':', '\\'] = true ∨
        strStartsWith path ['c', ':', '\\'] = true ∨
        strContainsSub path ['.', '.'] = true ∨
        strContainsChar path '\\' = true) := by
  unfold validate_zip_path
  cases h1 : path.isEmpty <;>
    cases h2 : strStartsWith path ['/'] <;>
      cases h3 : strStartsWith path ['C', ':', '\\'] <;>
        cases h4 : strStartsWith path ['c', ':', '\\'] <;>
          cases h5 : strContainsSub path ['.', '.'] <;>
            cases h6 : strContainsChar path '\\' <;> simp

/-- The drive-letter shape forces a backslash to occur in the path. -/
theorem driveShape_contains_backslash {path : List Char} {c : Char}
    {rest : List Char} (h : path = c :: ':' :: '\\' :: rest) :
    strContainsChar path '\\' = true := by
  subst h
  exact strContainsChar_of_mem (by simp)

/-- C3 — the path validator rejects a member name exactly when the name is
empty, begins with `/`, matches the drive-letter shape `X:\` for any drive
letter in either case, contains `..`, or contains `\`; in particular the five
listed member paths are rejected, and every other name is accepted. -/
theorem claim3_path_validator :
    (∀ path : List Char, validate_zip_path path = false ↔ specRejectsPath path) ∧
    validate_zip_path "..".toList = false ∧
    validate_zip_path "../etc/passwd".toList = false ∧
    validate_zip_path "/etc/passwd".toList = false ∧
    validate_zip_path "C:\\Windows\\x".toList = false ∧
    validate_zip_path "xl\\workbook.xml".toList = false := by
  refine ⟨fun path => ?_, by decide, by decide, by decide, by decide, by decide⟩
  rw [validate_zip_path_false_iff]
  unfold specRejectsPath
  constructor
  · rintro (h | h | h | h | h | h)
    · exact Or.inl (by simpa using h)
    · exact Or.inr (Or.inl ((strStartsWith_singleton path '/').mp h))
    · rcases (strStartsWith_three path 'C' ':' '\\').mp h with ⟨rest, hr⟩
      exact Or.inr (Or.inr (Or.inl ⟨'C', rest, hr, by decide⟩))
    · rcases (strStartsWith_three path 'c' ':' '\\').mp h with ⟨rest, hr⟩
      exact Or.inr (Or.inr (Or.inl ⟨'c', rest, hr, by decide⟩))
    · exact Or.inr (Or.inr (Or.inr (Or.inl h)))
    · exact Or.inr (Or.inr (Or.inr (Or.inr h)))
  · rintro (h | h | ⟨c, rest, hr, _⟩ | h | h)
    · exact Or.inl (by simp [h])
    · exact Or.inr (Or.inl ((strStartsWith_singleton path '/').mpr h))
    · exact Or.inr (Or.inr (Or.inr (Or.inr (Or.inr
        (driveShape_contains_backslash hr)))))
    · exact Or.inr (Or.inr (Or.inr (Or.inr (Or.inl h))))
    · exact Or.inr (Or.inr (Or.inr (Or.inr (Or.inr h))))

/-! ## Coordinates and A1 notation (src/types.rs, src/parser/metadata.rs) -/

/-- Zero-based cell coordinate (src/types.rs `CellCoord`; `u32` fields are
modelled as `Nat`). -/
structure CellCoord where
  row : Nat
  col : Nat
deriving DecidableEq, Repr

def CellCoord.new (row col : Nat) : CellCoord := ⟨row, col⟩

/-- Loop body of `CellCoord::col_index_to_letter` (src/types.rs lines 66-77):
each iteration front-inserts `'A' + col % 26` and then either stops
(`col < 26`) or continues with `col / 26 - 1`.  `fuel` bounds the iteration
count; `col + 1` iterations always suffice because `col` strictly decreases. -/
def colLetterGo : Nat → Nat → List Char → List Char
  | 0, _, acc => acc
  | fuel + 1, col, acc =>
    let acc1 := Char.ofNat (65 + col % 26) :: acc
    if col < 26 then acc1 else colLetterGo fuel (col / 26 - 1) acc1

/-- Embedding of `CellCoord::col_index_to_letter`. -/
def col_index_to_letter (col : Nat) : List Char :=
  colLetterGo (col + 1) col []

/-- Loop producing the decimal digits of a `u32` as rendered by Rust's
`Display` (most significant digit first, no leading zeros). -/
def natDigitsGo : Nat → Nat → List Char → List Char
  | 0, _, acc => acc
  | fuel + 1, n, acc =>
    let acc1 := Char.ofNat (48 + n % 10) :: acc
    if n < 10 then acc1 else natDigitsGo fuel (n / 10) acc1

/-- Decimal rendering of a `u32` (`format!("{}", n)` in the source). -/
def natToDecimal (n : Nat) : List Char :=
  natDigitsGo (n + 1) n []

/-- Embedding of `CellCoord::to_a1_notation` (src/types.rs lines 59-62):
column letters followed by the one-based row number. -/
def to_a1_notation (c : CellCoord) : List Char :=
  col_index_to_letter c.col ++ natToDecimal (c.row + 1)

/-- Column value computed by `parse_cell_ref`: the source reverses the letter
run, enumerates it and sums `(ch - 'A' + 1) * 26^i`. -/
def colLettersValue (l : List Char) : Nat :=
  (l.reverse.enum.map fun p => (p.2.toNat - 65 + 1) * 26 ^ p.1).sum

/-- Decimal value of a digit string (`str::parse::<u32>` on a string already
known to consist of ASCII digits; `u32` overflow is not modelled — every claim
input keeps the value far below `2^32`). -/
def decDigitsValue (l : List Char) : Nat :=
  l.foldl (fun acc c => acc * 10 + (c.toNat - 48)) 0

/-- Embedding of `XlsxMetadataParser::parse_cell_ref` (src/parser/metadata.rs
lines 999-1032).  The source walks the string collecting ASCII-alphabetic
characters into `col_str` and ASCII digits into `row_str`, rejects if either
run is empty, and otherwise returns the zero-based pair. -/
def parse_cell_ref (s : List Char) : Option (Nat × Nat) :=
  let col_str := s.filter fun ch => ch.isAlpha
  let row_str := s.filter fun ch => ch.isDigit
  if col_str.isEmpty || row_str.isEmpty then none
  else some (decDigitsValue row_str - 1, colLettersValue col_str - 1)

/-! Reference (recursively specified) forms of the two digit loops, used only
inside proofs; `colLetterGo`/`natDigitsGo` are shown equal to them. -/

/-- Reference form of the column-letter loop. -/
def lettersSpec (col : Nat) : List Char :=
  if h : col < 26 then [Char.ofNat (65 + col)]
  else lettersSpec (col / 26 - 1) ++ [Char.ofNat (65 + col % 26)]
termination_by col
decreasing_by
  have h26 : 26 ≤ col := Nat.le_of_not_lt h
  have : col / 26 < col := Nat.div_lt_self (by omega) (by omega)
  omega

/-- Reference form of the decimal-digit loop. -/
def digitsSpec (n : Nat) : List Char :=
  if h : n < 10 then [Char.ofNat (48 + n)]
  else digitsSpec (n / 10) ++ [Char.ofNat (48 + n % 10)]
termination_by n
decreasing_by
  have h10 : 10 ≤ n := Nat.le_of_not_lt h
  have : n / 10 < n := Nat.div_lt_self (by omega) (by omega)
  omega

theorem colLetterGo_eq (fuel col : Nat) (acc : List Char) (h : col < fuel) :
    colLetterGo fuel col acc = lettersSpec col ++ acc := by
  induction fuel generalizing col acc with
  | zero => omega
  | succ f ih =>
    rw [colLetterGo]
    by_cases hc : col < 26
    · rw [if_pos hc, lettersSpec, dif_pos hc]
      have : col % 26 = col := Nat.mod_eq_of_lt hc
      simp [this]
    · rw [if_neg hc]
      have hlt : col / 26 - 1 < f := by
        have : col / 26 < col := Nat.div_lt_self (by omega) (by omega)
        omega
      rw [ih _ _ hlt]
      conv_rhs => rw [lettersSpec]
      rw [dif_neg hc]
      simp

theorem natDigitsGo_eq (fuel n : Nat) (acc : List Char) (h : n < fuel) :
    natDigitsGo fuel n acc = digitsSpec n ++ acc := by
  induction fuel generalizing n acc with
  | zero => omega
  | succ f ih =>
    rw [natDigitsGo]
    by_cases hc : n < 10
    · rw [if_pos hc, digitsSpec, dif_pos hc]
      have : n % 10 = n := Nat.mod_eq_of_lt hc
      simp [this]
    · rw [if_neg hc]
      have hlt : n / 10 < f := by
        have : n / 10 < n := Nat.div_lt_self (by omega) (by omega)
        omega
      rw [ih _ _ hlt]
      conv_rhs => rw [digitsSpec]
      rw [dif_neg hc]
      simp

/-- Every produced column letter is ASCII-uppercase (alphabetic, not a
digit). -/
theorem lettersSpec_class (col : Nat) :
    ∀ c ∈ lettersSpec col, c.isAlpha = true ∧ c.isDigit = false := by
  induction col using Nat.strong_induction_on with
  | _ col ih =>
    rw [lettersSpec]
    by_cases hc : col < 26
    · rw [dif_pos hc]
      intro c hcm
      simp only [List.mem_singleton] at hcm
      subst hcm
      have : ∀ r < 26, (Char.ofNat (65 + r)).isAlpha = true ∧
          (Char.ofNat (65 + r)).isDigit = false := by decide
      exact this col hc
    · rw [dif_neg hc]
      intro c hcm
      rcases List.mem_append.mp hcm with hm | hm
      · exact ih _ (by
          have : col / 26 < col := Nat.div_lt_self (by omega) (by omega)
          omega) c hm
      · simp only [List.mem_singleton] at hm
        subst hm
        have : ∀ r < 26, (Char.ofNat (65 + r)).isAlpha = true ∧
            (Char.ofNat (65 + r)).isDigit = false := by decide
        exact this (col % 26) (Nat.mod_lt _ (by omega))

/-- Every produced decimal character is an ASCII digit (not alphabetic). -/
theorem digitsSpec_class (n : Nat) :
    ∀ c ∈ digitsSpec n, c.isDigit = true ∧ c.isAlpha = false := by
  induction n using Nat.strong_induction_on with
  | _ n ih =>
    rw [digitsSpec]
    by_cases hc : n < 10
    · rw [dif_pos hc]
      intro c hcm
      simp only [List.mem_singleton] at hcm
      subst hcm
      have : ∀ r < 10, (Char.ofNat (48 + r)).isDigit = true ∧
          (Char.ofNat (48 + r)).isAlpha = false := by decide
      exact this n hc
    · rw [dif_neg hc]
      intro c hcm
      rcases List.mem_append.mp hcm with hm | hm
      · exact ih _ (by
          have : n / 10 < n := Nat.div_lt_self (by omega) (by omega)
          omega) c hm
      · simp only [List.mem_singleton] at hm
        subst hm
        have : ∀ r < 10, (Char.ofNat (48 + r)).isDigit = true ∧
            (Char.ofNat (48 + r)).isAlpha = false := by decide
        exact this (n % 10) (Nat.mod_lt _ (by omega))

/-- Least-significant-first base-26 value, matching the enumerate-and-sum of
the source once the list is reversed. -/
def hornerRev (l : List Char) : Nat :=
  match l with
  | [] => 0
  | c :: rest => (c.toNat - 65 + 1) + 26 * hornerRev rest

theorem enum_pow_sum (l : List Char) :
    ∀ k, ((List.enumFrom k l).map fun p => (p.2.toNat - 65 + 1) * 26 ^ p.1).sum
      = 26 ^ k * hornerRev l := by
  induction l with
  | nil => intro k; simp [hornerRev]
  | cons c rest ih =>
    intro k
    simp only [List.enumFrom, List.map_cons, List.sum_cons, ih (k + 1), hornerRev]
    ring

theorem colLettersValue_eq (l : List Char) :
    colLettersValue l = hornerRev l.reverse := by
  have := enum_pow_sum l.reverse 0
  simpa [colLettersValue, List.enum] using this

theorem hornerRev_lettersSpec (col : Nat) :
    hornerRev (lettersSpec col).reverse = col + 1 := by
  induction col using Nat.strong_induction_on with
  | _ col ih =>
    rw [lettersSpec]
    by_cases hc : col < 26
    · rw [dif_pos hc]
      have hv : ∀ r < 26, (Char.ofNat (65 + r)).toNat = 65 + r := by decide
      simp [hornerRev, hv col hc]
    · rw [dif_neg hc]
      have hrec : col / 26 - 1 < col := by
        have : col / 26 < col := Nat.div_lt_self (by omega) (by omega)
        omega
      have hv : ∀ r < 26, (Char.ofNat (65 + r)).toNat = 65 + r := by decide
      simp only [List.reverse_append, List.reverse_singleton, List.singleton_append,
        hornerRev, ih _ hrec, hv (col % 26) (Nat.mod_lt _ (by omega))]
      omega

theorem decDigits_foldl (n : Nat) :
    ∀ acc, (digitsSpec n).foldl (fun a c => a * 10 + (c.toNat - 48)) acc
      = acc * 10 ^ (digitsSpec n).length + n := by
  induction n using Nat.strong_induction_on with
  | _ n ih =>
    intro acc
    rw [digitsSpec]
    by_cases hc : n < 10
    · rw [dif_pos hc]
      have hv : ∀ r < 10, (Char.ofNat (48 + r)).toNat = 48 + r := by decide
      simp [List.foldl, hv n hc]
    · rw [dif_neg hc]
      have hrec : n / 10 < n := Nat.div_lt_self (by omega) (by omega)
      have hv : ∀ r < 10, (Char.ofNat (48 + r)).toNat = 48 + r := by decide
      rw [List.foldl_append, ih _ hrec acc]
      simp only [List.length_append, List.length_singleton, List.foldl_cons,
        List.foldl_nil, hv (n % 10) (Nat.mod_lt _ (by omega))]
      rw [pow_succ]
      have hdm : n / 10 * 10 + n % 10 = n := by omega
      ring_nf
      omega

theorem lettersSpec_ne_nil (col : Nat) : lettersSpec col ≠ [] := by
  rw [lettersSpec]
  by_cases hc : col < 26
  · rw [dif_pos hc]; simp
  · rw [dif_neg hc]; simp

theorem digitsSpec_ne_nil (n : Nat) : digitsSpec n ≠ [] := by
  rw [digitsSpec]
  by_cases hc : n < 10
  · rw [dif_pos hc]; simp
  · rw [dif_neg hc]; simp

/-- C7 — converting a coordinate with `row, col < 10 000` to A1 notation and
re-parsing the resulting string yields the same pair. -/
theorem claim7_coordinate_roundtrip (row col : Nat)
    (hr : row < 10000) (hcol : col < 10000) :
    parse_cell_ref ( to_a1_notation (CellCoord.new row col)) = some (row, col) := by
  have hletters : col_index_to_letter col = lettersSpec col :=
    (colLetterGo_eq (col + 1) col [] (by omega)).trans (by simp)
  have hdigits : natToDecimal (row + 1) = digitsSpec (row + 1) :=
    (natDigitsGo_eq (row + 2) (row + 1) [] (by omega)).trans (by simp)
  unfold parse_cell_ref to_a1_notation
  simp only [CellCoord.new, hletters, hdigits, List.filter_append]
  have hfL1 : (lettersSpec col).filter (fun ch => ch.isAlpha) = lettersSpec col :=
    List.filter_eq_self.mpr fun c hm => (lettersSpec_class col c hm).1
  have hfL2 : (lettersSpec col).filter (fun ch => ch.isDigit) = [] := by
    rw [List.filter_eq_nil_iff]
    intro c hm
    simp [(lettersSpec_class col c hm).2]
  have hfD1 : (digitsSpec (row + 1)).filter (fun ch => ch.isAlpha) = [] := by
    rw [List.filter_eq_nil_iff]
    intro c hm
    simp [(digitsSpec_class (row + 1) c hm).2]
  have hfD2 : (digitsSpec (row + 1)).filter (fun ch => ch.isDigit)
      = digitsSpec (row + 1) :=
    List.filter_eq_self.mpr fun c hm => (digitsSpec_class (row + 1) c hm).1
  rw [hfL1, hfL2, hfD1, hfD2]
  simp only [List.append_nil, List.nil_append]
  have hne1 : (lettersSpec col).isEmpty = false := by
    cases h : lettersSpec col with
    | nil => exact absurd h (lettersSpec_ne_nil col)
    | cons a l => simp
  have hne2 : (digitsSpec (row + 1)).isEmpty = false := by
    cases h : digitsSpec (row + 1) with
    | nil => exact absurd h (digitsSpec_ne_nil (row + 1))
    | cons a l => simp
  rw [hne1, hne2]
  simp only [Bool.or_self, Bool.false_or, if_neg (by simp : ¬false = true)]
  have hcolv : colLettersValue (lettersSpec col) = col + 1 := by
    rw [colLettersValue_eq, hornerRev_lettersSpec]
  have hrowv : decDigitsValue (digitsSpec (row + 1)) = row + 1 := by
    unfold decDigitsValue
    rw [decDigits_foldl]
    simp
  rw [hcolv, hrowv]
  simp

/-- C7 witness — the round trip evaluated at the corner input (9999, 9999). -/
theorem claim7_witness :
    9999 < 10000 ∧ 9999 < 10000 ∧
      parse_cell_ref ( to_a1_notation (CellCoord.new 9999 9999))
        = some (9999, 9999) :=
  ⟨by decide, by decide,
    claim7_coordinate_roundtrip 9999 9999 (by decide) (by decide)⟩

/-! ## Data model for the grid builder (src/types.rs, src/grid.rs) -/

/-- Inclusive cell range (src/types.rs `CellRange`).  The source field `end`
is a Lean keyword and is embedded as `stop`. -/
structure CellRange where
  start : CellCoord
  stop : CellCoord
deriving DecidableEq, Repr

def CellRange.new (start stop : CellCoord) : CellRange := ⟨start, stop⟩

/-- Embedding of `CellRange::contains` (src/types.rs lines 95-100). -/
def CellRange.contains (r : CellRange) (c : CellCoord) : Bool :=
  decide (r.start.row ≤ c.row) && decide (c.row ≤ r.stop.row) &&
    decide (r.start.col ≤ c.col) && decide (c.col ≤ r.stop.col)

/-- Merge region (src/types.rs `MergedRegion`). -/
structure MergedRegion where
  range : CellRange
  parent : CellCoord
deriving DecidableEq, Repr

/-- Embedding of `MergedRegion::new`: the parent is fixed at `range.start`. -/
def MergedRegion.new (range : CellRange) : MergedRegion := ⟨range, range.start⟩

/-- Rich-text run format (src/types.rs `RichTextFormat`). -/
structure RichTextFormat where
  bold : Bool
  italic : Bool
deriving DecidableEq, Repr

/-- Rich-text run (src/types.rs `RichTextSegment`). -/
structure RichTextSegment where
  text : String
  format : RichTextFormat
deriving DecidableEq, Repr

/-- Cell value (src/types.rs `CellValue`); `f64` numbers are modelled as exact
rationals. -/
inductive CellValue where
  | number (n : ℚ)
  | string (s : String)
  | bool (b : Bool)
  | error (e : String)
  | empty
deriving DecidableEq, Repr

/-- Raw cell data produced by the parser (src/types.rs `RawCellData`). -/
structure RawCellData where
  coord : CellCoord
  value : CellValue
  format_id : Option Nat
  format_string : Option String
  formula : Option String
  hyperlink : Option String
  rich_text : Option (List RichTextSegment)
deriving DecidableEq, Repr

/-- Merge strategy (src/api.rs `MergeStrategy`). -/
inductive MergeStrategy where
  | dataDuplication
  | htmlFallback
deriving DecidableEq, Repr

/-- Formatted grid cell (src/grid.rs `Cell`). -/
structure Cell where
  content : String
  is_merged : Bool
  merge_parent : Option CellCoord
deriving DecidableEq, Repr

def Cell.new (content : String) : Cell := ⟨content, false, none⟩

def Cell.new_merged (content : String) (parent : CellCoord) : Cell :=
  ⟨content, true, some parent⟩

def Cell.empty : Cell := ⟨"", false, none⟩

/-- Dense grid storage, row major (`Vec<Vec<Cell>>` in the source). -/
abbrev GridCells := List (List Cell)

/-- Read `cells[r][c]`; `none` models a Rust index-out-of-bounds panic. -/
def gridGet (g : GridCells) (r c : Nat) : Option Cell :=
  (g[r]?).bind fun rowL => rowL[c]?

/-- Write `cells[r][c] = x`; `none` models a Rust index-out-of-bounds panic. -/
def gridSet (g : GridCells) (r c : Nat) (x : Cell) : Option GridCells :=
  (g[r]?).bind fun rowL =>
    if c < rowL.length then some (g.set r (rowL.set c x)) else none

/-- Embedding of `LogicalGrid::determine_grid_size` (src/grid.rs lines
124-134): running maxima over all raw-cell coordinates, plus one in each
dimension. -/
def determine_grid_size (cells : List RawCellData) : Nat × Nat :=
  let m := cells.foldl (fun (m : Nat × Nat) cell =>
    (max m.1 cell.coord.row, max m.2 cell.coord.col)) (0, 0)
  (m.1 + 1, m.2 + 1)

/-- Traversal order of the nested `start..=end` loops of
`apply_data_duplication` (rows outer, columns inner, both ascending). -/
def regionCoords (region : MergedRegion) : List (Nat × Nat) :=
  (List.range' region.range.start.row
      (region.range.stop.row + 1 - region.range.start.row)).flatMap fun r =>
    (List.range' region.range.start.col
        (region.range.stop.col + 1 - region.range.start.col)).map fun c => (r, c)

/-- Per-region body of `apply_data_duplication` (src/grid.rs lines 143-161):
read the parent cell's content, then overwrite every non-parent cell of the
region with a merged cell referencing the parent. -/
def applyRegion (g : GridCells) (region : MergedRegion) : Option GridCells :=
  match gridGet g region.parent.row region.parent.col with
  | none => none
  | some parentCell =>
    (regionCoords region).foldlM (fun g rc =>
      if rc.1 == region.parent.row && rc.2 == region.parent.col then some g
      else gridSet g rc.1 rc.2
        (Cell.new_merged parentCell.content region.parent)) g

/-- Embedding of `LogicalGrid::apply_data_duplication` (src/grid.rs lines
139-164); the source's `Result` is never `Err` here, the only failure mode is
an index panic (`none`). -/
def apply_data_duplication (g : GridCells)
    (merged_regions : List MergedRegion) : Option GridCells :=
  merged_regions.foldlM applyRegion g

/-- Built grid (src/grid.rs `LogicalGrid`). -/
structure LogicalGrid where
  cells : GridCells
  rows : Nat
  cols : Nat
deriving DecidableEq, Repr

/-- Total write used by the placement step: the source writes
`grid_cells[row][col]` only under the guard `row < rows && col < cols`, which
keeps the access inside the freshly allocated grid. -/
def setCellClamped (g : GridCells) (r c : Nat) (x : Cell) : GridCells :=
  (g[r]?).elim g fun rowL => g.set r (rowL.set c x)

/-- Step 3 of `LogicalGrid::build`: place the formatted strings. -/
def placeFormatted (rows cols : Nat) (g : GridCells)
    (formatted_cells : List (CellCoord × String)) : GridCells :=
  formatted_cells.foldl (fun g p =>
    if p.1.row < rows && p.1.col < cols then
      setCellClamped g p.1.row p.1.col (Cell.new p.2)
    else g) g

/-- Embedding of `LogicalGrid::build` (src/grid.rs lines 82-119).  The
`metadata` argument of the source is represented by its only field used here,
the `merged_regions` list; `none` models the index-out-of-bounds panic that
`apply_data_duplication` can hit. -/
def LogicalGrid.build (cells : List RawCellData)
    (formatted_cells : List (CellCoord × String))
    (merged_regions : List MergedRegion)
    (merge_strategy : MergeStrategy) : Option LogicalGrid :=
  let sz := determine_grid_size cells
  let grid0 : GridCells := List.replicate sz.1 (List.replicate sz.2 Cell.empty)
  let grid1 := placeFormatted sz.1 sz.2 grid0 formatted_cells
  match merge_strategy with
  | .dataDuplication =>
    match apply_data_duplication grid1 merged_regions with
    | none => none
    | some g2 => some ⟨g2, sz.1, sz.2⟩
  | .htmlFallback => some ⟨grid1, sz.1, sz.2⟩

/-- With no merge regions `build` reduces to allocation plus placement. -/
theorem build_nil_regions (cells : List RawCellData)
    (formatted_cells : List (CellCoord × String)) (strategy : MergeStrategy) :
    LogicalGrid.build cells formatted_cells [] strategy =
      some ⟨placeFormatted (determine_grid_size cells).1
              (determine_grid_size cells).2
              (List.replicate (determine_grid_size cells).1
                (List.replicate (determine_grid_size cells).2 Cell.empty))
              formatted_cells,
            (determine_grid_size cells).1, (determine_grid_size cells).2⟩ := by
  cases strategy <;> rfl

/-- C10 — with an empty merge-region list `build` always succeeds and returns
a grid with at least one row and one column; in particular the fully empty
input yields a 1×1 grid whose single cell has empty content, is not marked
merged and carries no parent back-reference. -/
theorem claim10_empty_input_grid :
    (∀ (cells : List RawCellData) (formatted_cells : List (CellCoord × String))
        (strategy : MergeStrategy), ∃ g,
      LogicalGrid.build cells formatted_cells [] strategy = some g ∧
        1 ≤ g.rows ∧ 1 ≤ g.cols) ∧
    (∀ strategy, LogicalGrid.build [] [] [] strategy
      = some ⟨[[Cell.empty]], 1, 1⟩) := by
  constructor
  · intro cells fc strategy
    exact ⟨_, build_nil_regions cells fc strategy, Nat.le_add_left 1 _,
      Nat.le_add_left 1 _⟩
  · intro strategy
    cases strategy <;> decide

/-! ## Shape invariant and success analysis of the grid builder -/

/-- Shape invariant: `rows` rows of `cols` cells each. -/
def Shaped (rows cols : Nat) (g : GridCells) : Prop :=
  g.length = rows ∧ ∀ rowL ∈ g, rowL.length = cols

theorem shaped_replicate (rows cols : Nat) :
    Shaped rows cols (List.replicate rows (List.replicate cols Cell.empty)) := by
  constructor
  · simp
  · intro rowL hm
    rw [List.eq_of_mem_replicate hm]
    simp

theorem shaped_set {rows cols : Nat} {g : GridCells} (hs : Shaped rows cols g)
    {rowL : List Cell} (hrl : rowL.length = cols) (r : Nat) :
    Shaped rows cols (g.set r rowL) := by
  refine ⟨by simp [hs.1], ?_⟩
  intro w hw
  rcases List.mem_or_eq_of_mem_set hw with hw' | rfl
  · exact hs.2 w hw'
  · exact hrl

theorem shaped_setCellClamped {rows cols : Nat} {g : GridCells}
    (hs : Shaped rows cols g) (r c : Nat) (x : Cell) :
    Shaped rows cols (setCellClamped g r c x) := by
  unfold setCellClamped
  cases hr : g[r]? with
  | none => simpa [Option.elim] using hs
  | some rowL =>
    have hm : rowL ∈ g := List.getElem?_mem hr
    simpa [Option.elim] using shaped_set hs (by simp [hs.2 rowL hm]) r

theorem shaped_placeFormatted {rows cols : Nat} {g : GridCells}
    (hs : Shaped rows cols g) (fc : List (CellCoord × String)) :
    Shaped rows cols (placeFormatted rows cols g fc) := by
  unfold placeFormatted
  induction fc generalizing g with
  | nil => exact hs
  | cons p rest ih =>
    rw [List.foldl_cons]
    by_cases hcond : (p.1.row < rows && p.1.col < cols) = true
    · rw [if_pos hcond]
      exact ih (shaped_setCellClamped hs _ _ _)
    · rw [if_neg hcond]
      exact ih hs

theorem gridSet_some_bounds {g g' : GridCells} {r c : Nat} {x : Cell}
    (h : gridSet g r c x = some g') :
    ∃ rowL, g[r]? = some rowL ∧ c < rowL.length := by
  unfold gridSet at h
  cases hr : g[r]? with
  | none => rw [hr] at h; exact absurd h (by simp)
  | some rowL =>
    rw [hr] at h
    simp only [Option.some_bind] at h
    by_cases hc : c < rowL.length
    · exact ⟨rowL, rfl, hc⟩
    · rw [if_neg hc] at h; exact absurd h (by simp)

theorem gridSet_eq_of_bounds {g : GridCells} {r c : Nat} (x : Cell)
    {rowL : List Cell} (hr : g[r]? = some rowL) (hc : c < rowL.length) :
    gridSet g r c x = some (g.set r (rowL.set c x)) := by
  unfold gridSet
  rw [hr]
  simp only [Option.some_bind]
  rw [if_pos hc]

theorem gridSet_shaped {rows cols : Nat} {g g' : GridCells} {r c : Nat}
    {x : Cell} (hs : Shaped rows cols g) (h : gridSet g r c x = some g') :
    Shaped rows cols g' := by
  obtain ⟨rowL, hr, hc⟩ := gridSet_some_bounds h
  rw [gridSet_eq_of_bounds x hr hc] at h
  cases h
  exact shaped_set hs (by simp [hs.2 rowL (List.getElem?_mem hr)]) r

theorem gridGet_some_bounds {rows cols : Nat} {g : GridCells} {r c : Nat}
    {x : Cell} (hs : Shaped rows cols g) (h : gridGet g r c = some x) :
    r < rows ∧ c < cols := by
  unfold gridGet at h
  cases hr : g[r]? with
  | none => rw [hr] at h; exact absurd h (by simp)
  | some rowL =>
    rw [hr] at h
    simp only [Option.some_bind] at h
    have h1 : r < g.length := by
      by_contra hcon
      rw [List.getElem?_eq_none (by omega)] at hr
      exact absurd hr (by simp)
    have h2 : c < rowL.length := by
      by_contra hcon
      rw [List.getElem?_eq_none (by omega)] at h
      exact absurd h (by simp)
    have h3 := hs.2 rowL (List.getElem?_mem hr)
    have h4 := hs.1
    omega

theorem gridSet_bounds_of_shaped {rows cols : Nat} {g g' : GridCells}
    {r c : Nat} {x : Cell} (hs : Shaped rows cols g)
    (h : gridSet g r c x = some g') : r < rows ∧ c < cols := by
  obtain ⟨rowL, hr, hc⟩ := gridSet_some_bounds h
  have h1 : r < g.length := by
    by_contra hcon
    rw [List.getElem?_eq_none (by omega)] at hr
    exact absurd hr (by simp)
  have h3 := hs.2 rowL (List.getElem?_mem hr)
  have h4 := hs.1
  omega

/-- Invariant-carrying success analysis of a monadic fold over `Option`: when
the fold succeeds, every list element was processed successfully from some
intermediate state satisfying the invariant. -/
theorem foldlM_option_inv {α β : Type} {f : α → β → Option α} {I : α → Prop}
    (hf : ∀ a x a', I a → f a x = some a' → I a') :
    ∀ (l : List β) (a b : α), I a → l.foldlM f a = some b →
      I b ∧ ∀ x ∈ l, ∃ a1 a2, I a1 ∧ f a1 x = some a2 := by
  intro l
  induction l with
  | nil =>
    intro a b hI h
    have h' : some a = some b := h
    cases h'
    exact ⟨hI, by simp⟩
  | cons x xs ih =>
    intro a b hI h
    rw [List.foldlM_cons] at h
    cases hx : f a x with
    | none => rw [hx] at h; exact absurd h (by simp)
    | some a1 =>
      rw [hx] at h
      have h2 : xs.foldlM f a1 = some b := h
      obtain ⟨hIb, hmem⟩ := ih a1 b (hf a x a1 hI hx) h2
      refine ⟨hIb, ?_⟩
      intro y hy
      rcases List.mem_cons.mp hy with rfl | hy'
      · exact ⟨a, a1, hI, hx⟩
      · exact hmem y hy'

theorem applyRegion_step_shaped {rows cols : Nat} (R : MergedRegion)
    (pc : Cell) :
    ∀ (a : GridCells) (rc : Nat × Nat) (a' : GridCells), Shaped rows cols a →
      (if rc.1 == R.parent.row && rc.2 == R.parent.col then some a
        else gridSet a rc.1 rc.2 (Cell.new_merged pc.content R.parent))
          = some a' →
      Shaped rows cols a' := by
  intro a rc a' hs h
  by_cases hcond : (rc.1 == R.parent.row && rc.2 == R.parent.col) = true
  · rw [if_pos hcond] at h; cases h; exact hs
  · rw [if_neg hcond] at h; exact gridSet_shaped hs h

theorem applyRegion_shaped {rows cols : Nat} {g g' : GridCells}
    {R : MergedRegion} (hs : Shaped rows cols g)
    (h : applyRegion g R = some g') : Shaped rows cols g' := by
  unfold applyRegion at h
  cases hp : gridGet g R.parent.row R.parent.col with
  | none => rw [hp] at h; exact absurd h (by simp)
  | some pc =>
    rw [hp] at h
    exact (foldlM_option_inv (applyRegion_step_shaped R pc) _ g g' hs h).1

theorem mem_regionCoords {R : MergedRegion} {x y : Nat} :
    (x, y) ∈ regionCoords R ↔
      (R.range.start.row ≤ x ∧ x ≤ R.range.stop.row ∧
        R.range.start.col ≤ y ∧ y ≤ R.range.stop.col) := by
  unfold regionCoords
  simp only [List.mem_flatMap, List.mem_map, List.mem_range'_1, Prod.mk.injEq]
  constructor
  · rintro ⟨r, ⟨hr1, hr2⟩, c, ⟨hc1, hc2⟩, rfl, rfl⟩
    omega
  · rintro ⟨h1, h2, h3, h4⟩
    exact ⟨x, by omega, y, by omega, rfl, rfl⟩

theorem mem_regionCoords_contains {R : MergedRegion} {x y : Nat} :
    (x, y) ∈ regionCoords R ↔ R.range.contains ⟨x, y⟩ = true := by
  rw [mem_regionCoords]
  unfold CellRange.contains
  simp only [Bool.and_eq_true, decide_eq_true_eq]
  constructor
  · rintro ⟨h1, h2, h3, h4⟩; exact ⟨⟨⟨h1, h2⟩, h3⟩, h4⟩
  · rintro ⟨⟨⟨h1, h2⟩, h3⟩, h4⟩; exact ⟨h1, h2, h3, h4⟩

/-- Coverage of the raw-cell coordinates by the computed grid size. -/
theorem determine_grid_size_covers (cells : List RawCellData) :
    ∀ cell ∈ cells, cell.coord.row < (determine_grid_size cells).1 ∧
      cell.coord.col < (determine_grid_size cells).2 := by
  have main : ∀ (l : List RawCellData) (m : Nat × Nat),
      (m.1 ≤ (l.foldl (fun (m : Nat × Nat) cell =>
          (max m.1 cell.coord.row, max m.2 cell.coord.col)) m).1 ∧
        m.2 ≤ (l.foldl (fun (m : Nat × Nat) cell =>
          (max m.1 cell.coord.row, max m.2 cell.coord.col)) m).2) ∧
      ∀ cell ∈ l,
        cell.coord.row ≤ (l.foldl (fun (m : Nat × Nat) cell =>
          (max m.1 cell.coord.row, max m.2 cell.coord.col)) m).1 ∧
        cell.coord.col ≤ (l.foldl (fun (m : Nat × Nat) cell =>
          (max m.1 cell.coord.row, max m.2 cell.coord.col)) m).2 := by
    intro l
    induction l with
    | nil => intro m; exact ⟨⟨le_refl _, le_refl _⟩, by simp⟩
    | cons cell rest ih =>
      intro m
      rw [List.foldl_cons]
      obtain ⟨⟨hm1, hm2⟩, hmem⟩ :=
        ih (max m.1 cell.coord.row, max m.2 cell.coord.col)
      refine ⟨⟨le_trans (le_max_left _ _) hm1, le_trans (le_max_left _ _) hm2⟩, ?_⟩
      intro c hc
      rcases List.mem_cons.mp hc with rfl | hc'
      · exact ⟨le_trans (le_max_right _ _) hm1, le_trans (le_max_right _ _) hm2⟩
      · exact hmem c hc'
  intro cell hm
  obtain ⟨h1, h2⟩ := (main cells (0, 0)).2 cell hm
  unfold determine_grid_size
  constructor <;> [skip; skip] <;> simp only [] <;> omega

/-! ## C1 — grid dimensions versus raw cells and merge regions -/

/-- Raw cell at (0, 0) used by the C1 counterexample. -/
def c1xCell : RawCellData :=
  ⟨⟨0, 0⟩, CellValue.empty, none, none, none, none, none⟩

/-- Merge region reaching (2, 2), outside the 1×1 grid, used by the C1
counterexample. -/
def c1xRegion : MergedRegion := MergedRegion.new (CellRange.new ⟨0, 0⟩ ⟨2, 2⟩)

/-- C1 counterexample — under the html-fallback strategy `build` accepts a
merge region whose end coordinate (2, 2) lies outside the resulting 1×1 grid:
the build succeeds yet `rows > 2` is false. -/
theorem claim1_counterexample :
    (LogicalGrid.build [c1xCell] [] [c1xRegion] .htmlFallback).map
        (fun g => decide (c1xRegion.range.stop.row < g.rows) ||
          decide (c1xRegion.range.stop.col < g.cols))
      = some false := by decide

/-- C1 amended — whenever `build` succeeds, the grid covers every raw cell's
coordinate; and under the data-duplication strategy it also covers every
well-formed merge region's end coordinate.  (Under html-fallback the regions
are never inspected, so acceptance implies nothing about them — the
counterexample above forces this restriction.) -/
theorem claim1_amended (cells : List RawCellData)
    (formatted_cells : List (CellCoord × String))
    (merged_regions : List MergedRegion) (strategy : MergeStrategy)
    (g : LogicalGrid)
    (hwf : ∀ r ∈ merged_regions, r.parent = r.range.start ∧
      r.range.start.row ≤ r.range.stop.row ∧
      r.range.start.col ≤ r.range.stop.col)
    (hb : LogicalGrid.build cells formatted_cells merged_regions strategy
      = some g) :
    (∀ cell ∈ cells, cell.coord.row < g.rows ∧ cell.coord.col < g.cols) ∧
    (strategy = MergeStrategy.dataDuplication →
      ∀ r ∈ merged_regions,
        r.range.stop.row < g.rows ∧ r.range.stop.col < g.cols) := by
  unfold LogicalGrid.build at hb
  set sz := determine_grid_size cells with hsz
  have hshape : Shaped sz.1 sz.2
      (placeFormatted sz.1 sz.2
        (List.replicate sz.1 (List.replicate sz.2 Cell.empty))
        formatted_cells) :=
    shaped_placeFormatted (shaped_replicate sz.1 sz.2) formatted_cells
  cases strategy with
  | htmlFallback =>
    simp only [] at hb
    cases hb
    refine ⟨?_, by intro h; exact absurd h (by simp)⟩
    intro cell hm
    exact determine_grid_size_covers cells cell hm
  | dataDuplication =>
    simp only [] at hb
    cases hdup : apply_data_duplication
        (placeFormatted sz.1 sz.2
          (List.replicate sz.1 (List.replicate sz.2 Cell.empty))
          formatted_cells) merged_regions with
    | none => rw [hdup] at hb; exact absurd hb (by simp)
    | some g2 =>
      rw [hdup] at hb
      cases hb
      refine ⟨fun cell hm => determine_grid_size_covers cells cell hm, ?_⟩
      intro _ r hr
      obtain ⟨hmem⟩ := And.intro
        ((foldlM_option_inv
          (fun a x a' hI h => applyRegion_shaped hI h)
          merged_regions _ g2 hshape hdup).2) trivial
      obtain ⟨g1, g2', hg1, happ⟩ := hmem r hr
      obtain ⟨hpar, hrow, hcol⟩ := hwf r hr
      unfold applyRegion at happ
      cases hp : gridGet g1 r.parent.row r.parent.col with
      | none => rw [hp] at happ; exact absurd happ (by simp)
      | some pc =>
        rw [hp] at happ
        have hpb := gridGet_some_bounds hg1 hp
        by_cases heq : r.range.start = r.range.stop
        · rw [hpar, heq] at hpb
          exact hpb
        · have hmemstop : (r.range.stop.row, r.range.stop.col)
              ∈ regionCoords r := by
            rw [mem_regionCoords]
            omega
          obtain ⟨_, hall⟩ := foldlM_option_inv
            (applyRegion_step_shaped r pc) (regionCoords r) g1 g2' hg1 happ
          obtain ⟨a1, a2, ha1, hstep⟩ := hall _ hmemstop
          have hguard : ((r.range.stop.row == r.parent.row) &&
              (r.range.stop.col == r.parent.col)) = false := by
            rw [hpar]
            by_contra hcon
            simp only [Bool.not_eq_false, Bool.and_eq_true, beq_iff_eq] at hcon
            apply heq
            cases hc : r.range.start
            cases hcs : r.range.stop
            simp only [hc, hcs] at hcon ⊢
            simp_all [CellCoord.mk.injEq]
          rw [if_neg (by simp [hguard])] at hstep
          exact gridSet_bounds_of_shaped ha1 hstep

/-- Concrete inputs for the C1/C2 witnesses: a 2×3 grid with one merge region
covering (0,0)..(1,1). -/
def c1wCells : List RawCellData :=
  [⟨⟨1, 2⟩, CellValue.empty, none, none, none, none, none⟩]

def c1wRegion : MergedRegion := MergedRegion.new (CellRange.new ⟨0, 0⟩ ⟨1, 1⟩)

def c1wGrid : LogicalGrid :=
  ⟨[[Cell.empty, Cell.new_merged "" ⟨0, 0⟩, Cell.empty],
    [Cell.new_merged "" ⟨0, 0⟩, Cell.new_merged "" ⟨0, 0⟩, Cell.empty]], 2, 3⟩

/-- C1 witness — the amended statement applied to a concrete successful
data-duplication build. -/
theorem claim1_witness :
    (∀ cell ∈ c1wCells,
      cell.coord.row < c1wGrid.rows ∧ cell.coord.col < c1wGrid.cols) ∧
    (MergeStrategy.dataDuplication = MergeStrategy.dataDuplication →
      ∀ r ∈ [c1wRegion],
        r.range.stop.row < c1wGrid.rows ∧ r.range.stop.col < c1wGrid.cols) :=
  claim1_amended c1wCells [] [c1wRegion] .dataDuplication c1wGrid
    (by decide) (by decide)

/-! ## C2 — merge parent identity under data duplication -/

theorem gridSet_get_self {g g' : GridCells} {r c : Nat} {x : Cell}
    (h : gridSet g r c x = some g') : gridGet g' r c = some x := by
  obtain ⟨rowL, hr, hc⟩ := gridSet_some_bounds h
  rw [gridSet_eq_of_bounds x hr hc] at h
  cases h
  have h1 : r < g.length := by
    by_contra hcon
    rw [List.getElem?_eq_none (by omega)] at hr
    exact absurd hr (by simp)
  unfold gridGet
  rw [List.getElem?_set_self h1]
  simp only [Option.some_bind]
  rw [List.getElem?_set_self hc]

theorem gridSet_get_other {g g' : GridCells} {r c : Nat} {x : Cell}
    (h : gridSet g r c x = some g') (r' c' : Nat)
    (hne : ¬(r' = r ∧ c' = c)) : gridGet g' r' c' = gridGet g r' c' := by
  obtain ⟨rowL, hr, hc⟩ := gridSet_some_bounds h
  rw [gridSet_eq_of_bounds x hr hc] at h
  cases h
  unfold gridGet
  by_cases hrr : r' = r
  · subst hrr
    have hcc : c ≠ c' := fun hcc => hne ⟨rfl, hcc.symm⟩
    have h1 : r' < g.length := by
      by_contra hcon
      rw [List.getElem?_eq_none (by omega)] at hr
      exact absurd hr (by simp)
    rw [List.getElem?_set_self h1, hr]
    simp only [Option.some_bind]
    rw [List.getElem?_set_ne hcc]
  · rw [List.getElem?_set_ne fun he => hrr he.symm]

/-- Characterisation of the inner write loop of `applyRegion`: on success the
non-parent coordinates of the list hold the written cell and everything else
is untouched. -/
theorem writeFold_spec (v : Cell) (pr pc : Nat) :
    ∀ (l : List (Nat × Nat)) (g g' : GridCells),
      (l.foldlM (fun g rc =>
        if rc.1 == pr && rc.2 == pc then some g
        else gridSet g rc.1 rc.2 v) g) = some g' →
      (∀ rc ∈ l, ¬(rc.1 = pr ∧ rc.2 = pc) → gridGet g' rc.1 rc.2 = some v) ∧
      (∀ r c : Nat, ((r, c) ∉ l ∨ (r = pr ∧ c = pc)) →
        gridGet g' r c = gridGet g r c) := by
  intro l
  induction l with
  | nil =>
    intro g g' h
    have h0 : some g = some g' := h
    cases h0
    exact ⟨by simp, fun r c _ => rfl⟩
  | cons rc0 rest ih =>
    intro g g' h
    rw [List.foldlM_cons] at h
    by_cases hguard : (rc0.1 == pr && rc0.2 == pc) = true
    · rw [if_pos hguard] at h
      have h1 : rest.foldlM _ g = some g' := h
      obtain ⟨ha, hb⟩ := ih g g' h1
      have hrc0 : rc0.1 = pr ∧ rc0.2 = pc := by
        simpa only [Bool.and_eq_true, beq_iff_eq] using hguard
      refine ⟨?_, ?_⟩
      · intro rc hm hne
        rcases List.mem_cons.mp hm with heq | hm'
        · subst heq; exact absurd hrc0 hne
        · exact ha rc hm' hne
      · intro r c hcnd
        apply hb
        rcases hcnd with hnotin | heq
        · exact Or.inl fun hin => hnotin (List.mem_cons_of_mem _ hin)
        · exact Or.inr heq
    · rw [if_neg hguard] at h
      cases hset : gridSet g rc0.1 rc0.2 v with
      | none => rw [hset] at h; exact absurd h (by simp)
      | some g1 =>
        rw [hset] at h
        have h1 : rest.foldlM _ g1 = some g' := h
        obtain ⟨ha, hb⟩ := ih g1 g' h1
        refine ⟨?_, ?_⟩
        · intro rc hm hne
          rcases List.mem_cons.mp hm with heq | hm'
          · subst heq
            by_cases hin : rc ∈ rest
            · exact ha rc hin hne
            · rw [hb rc.1 rc.2 (Or.inl (by simpa using hin))]
              exact gridSet_get_self hset
          · exact ha rc hm' hne
        · intro r c hcnd
          rcases hcnd with hnotin | heq
          · have hno_rest : (r, c) ∉ rest :=
              fun hin => hnotin (List.mem_cons_of_mem _ hin)
            have hne_rc0 : (r, c) ≠ rc0 :=
              fun he => hnotin (he ▸ List.mem_cons_self _ _)
            rw [hb r c (Or.inl hno_rest)]
            apply gridSet_get_other hset
            intro hcon
            apply hne_rc0
            rw [hcon.1, hcon.2]
          · have hrc0ne : ¬(rc0.1 = pr ∧ rc0.2 = pc) := by
              intro hcon
              exact hguard (by simp [hcon.1, hcon.2])
            rw [hb r c (Or.inr heq)]
            apply gridSet_get_other hset
            intro hcon
            exact hrc0ne ⟨hcon.1 ▸ heq.1, hcon.2 ▸ heq.2⟩

/-- Effect of one region application: the parent content is read from the
incoming grid, the non-parent cells inside the region become merged copies,
and every other cell is untouched. -/
theorem applyRegion_spec {g g' : GridCells} {R : MergedRegion}
    (h : applyRegion g R = some g') :
    ∃ pcell, gridGet g R.parent.row R.parent.col = some pcell ∧
      (∀ x y, R.range.contains ⟨x, y⟩ = true →
        ¬(x = R.parent.row ∧ y = R.parent.col) →
        gridGet g' x y = some (Cell.new_merged pcell.content R.parent)) ∧
      (∀ x y, R.range.contains ⟨x, y⟩ = false ∨
          (x = R.parent.row ∧ y = R.parent.col) →
        gridGet g' x y = gridGet g x y) := by
  unfold applyRegion at h
  cases hp : gridGet g R.parent.row R.parent.col with
  | none => rw [hp] at h; exact absurd h (by simp)
  | some pcell =>
    rw [hp] at h
    obtain ⟨ha, hb⟩ := writeFold_spec _ _ _ (regionCoords R) g g' h
    refine ⟨pcell, rfl, ?_, ?_⟩
    · intro x y hcont hne
      exact ha (x, y) (mem_regionCoords_contains.mpr hcont) hne
    · intro x y hcnd
      apply hb
      rcases hcnd with hf | hpar
      · exact Or.inl fun hin =>
          by rw [mem_regionCoords_contains.mp hin] at hf; cases hf
      · exact Or.inr hpar

theorem applyRegion_frame {g g' : GridCells} {T : MergedRegion}
    (h : applyRegion g T = some g') (x y : Nat)
    (hout : T.range.contains ⟨x, y⟩ = false) :
    gridGet g' x y = gridGet g x y := by
  obtain ⟨pcell, _, _, hb⟩ := applyRegion_spec h
  exact hb x y (Or.inl hout)

theorem dup_frame {x y : Nat} :
    ∀ (post : List MergedRegion) (g g' : GridCells),
      apply_data_duplication g post = some g' →
      (∀ T ∈ post, T.range.contains ⟨x, y⟩ = false) →
      gridGet g' x y = gridGet g x y := by
  intro post
  induction post with
  | nil =>
    intro g g' h _
    have h0 : some g = some g' := h
    cases h0
    rfl
  | cons T rest ih =>
    intro g g' h hall
    unfold apply_data_duplication at h
    rw [List.foldlM_cons] at h
    cases hT : applyRegion g T with
    | none => rw [hT] at h; exact absurd h (by simp)
    | some g1 =>
      rw [hT] at h
      have h1 : apply_data_duplication g1 rest = some g' := h
      rw [ih g1 g' h1 fun T' hm => hall T' (List.mem_cons_of_mem _ hm)]
      exact applyRegion_frame hT x y (hall T (List.mem_cons_self _ _))

/-- Two merge regions are disjoint when no coordinate lies in both. -/
def RegionsDisjoint (a b : MergedRegion) : Prop :=
  ∀ coord : CellCoord,
    ¬(a.range.contains coord = true ∧ b.range.contains coord = true)

theorem contains_start {R : MergedRegion} {coord : CellCoord}
    (hc : R.range.contains coord = true) :
    R.range.contains R.range.start = true := by
  unfold CellRange.contains at *
  simp only [Bool.and_eq_true, decide_eq_true_eq] at *
  omega

/-- Per-region outcome of `apply_data_duplication` for well-formed,
pairwise-disjoint region lists. -/
theorem dup_regions_spec :
    ∀ (regions : List MergedRegion) (g g' : GridCells),
      (∀ S ∈ regions, S.parent = S.range.start) →
      regions.Pairwise RegionsDisjoint →
      apply_data_duplication g regions = some g' →
      ∀ R ∈ regions, ∀ coord : CellCoord, R.range.contains coord = true →
        ∃ pcell, gridGet g' R.parent.row R.parent.col = some pcell ∧
          (¬(coord.row = R.parent.row ∧ coord.col = R.parent.col) →
            gridGet g' coord.row coord.col
              = some (Cell.new_merged pcell.content R.parent)) := by
  intro regions
  induction regions with
  | nil =>
    intro g g' _ _ _ R hR
    exact absurd hR (by simp)
  | cons S rest ih =>
    intro g g' hpar hpw h R hR coord hc
    unfold apply_data_duplication at h
    rw [List.foldlM_cons] at h
    cases hS : applyRegion g S with
    | none => rw [hS] at h; exact absurd h (by simp)
    | some g1 =>
      rw [hS] at h
      have h1 : apply_data_duplication g1 rest = some g' := h
      obtain ⟨hSdisj, hpwrest⟩ := List.pairwise_cons.mp hpw
      rcases List.mem_cons.mp hR with heqR | hmR
      · subst heqR
        obtain ⟨pcell, hpget, hchild, hframe⟩ := applyRegion_spec hS
        have hparS : R.parent = R.range.start := hpar R (List.mem_cons_self _ _)
        have hrest_out : ∀ (c' : CellCoord), R.range.contains c' = true →
            ∀ T ∈ rest, T.range.contains c' = false := by
          intro c' hc' T hm
          cases hT : T.range.contains c' with
          | false => rfl
          | true => exact absurd ⟨hc', hT⟩ (hSdisj T hm c')
        have hcp : R.range.contains
            ⟨R.parent.row, R.parent.col⟩ = true := by
          rw [hparS]
          exact contains_start hc
        have hgp : gridGet g' R.parent.row R.parent.col
            = gridGet g1 R.parent.row R.parent.col :=
          dup_frame rest g1 g' h1 (hrest_out _ hcp)
        have hgp1 : gridGet g1 R.parent.row R.parent.col = some pcell := by
          rw [hframe _ _ (Or.inr ⟨rfl, rfl⟩)]
          exact hpget
        refine ⟨pcell, hgp.trans hgp1, ?_⟩
        intro hne
        have hcc : R.range.contains ⟨coord.row, coord.col⟩ = true := hc
        have hgc : gridGet g' coord.row coord.col
            = gridGet g1 coord.row coord.col :=
          dup_frame rest g1 g' h1 (hrest_out _ hcc)
        rw [hgc]
        exact hchild coord.row coord.col hcc hne
      · exact ih g1 g' (fun T hm => hpar T (List.mem_cons_of_mem _ hm))
          hpwrest h1 R hmR coord hc

/-- C2 amended — under data duplication, when the merge regions are pairwise
disjoint (and carry their derived parent at `range.start`, as every region
built by `MergedRegion::new` does), every cell inside a region ends with
content byte-for-byte equal to the region parent's cell content, and every
non-parent cell is marked merged with a back-reference to the parent.  The
counterexample below shows the disjointness restriction is necessary. -/
theorem claim2_amended (cells : List RawCellData)
    (formatted_cells : List (CellCoord × String))
    (merged_regions : List MergedRegion) (g : LogicalGrid)
    (hpar : ∀ S ∈ merged_regions, S.parent = S.range.start)
    (hdisj : merged_regions.Pairwise RegionsDisjoint)
    (hb : LogicalGrid.build cells formatted_cells merged_regions
      .dataDuplication = some g)
    (R : MergedRegion) (hR : R ∈ merged_regions) (coord : CellCoord)
    (hc : R.range.contains coord = true) :
    ∃ pcell, gridGet g.cells R.parent.row R.parent.col = some pcell ∧
      (coord ≠ R.parent →
        gridGet g.cells coord.row coord.col
          = some (Cell.new_merged pcell.content R.parent)) := by
  unfold LogicalGrid.build at hb
  simp only [] at hb
  cases hdup : apply_data_duplication
      (placeFormatted (determine_grid_size cells).1 (determine_grid_size cells).2
        (List.replicate (determine_grid_size cells).1
          (List.replicate (determine_grid_size cells).2 Cell.empty))
        formatted_cells) merged_regions with
  | none => rw [hdup] at hb; exact absurd hb (by simp)
  | some g2 =>
    rw [hdup] at hb
    cases hb
    obtain ⟨pcell, h1, h2⟩ :=
      dup_regions_spec merged_regions _ g2 hpar hdisj hdup R hR coord hc
    refine ⟨pcell, h1, fun hne => h2 fun hcon => hne ?_⟩
    cases coord with
    | mk a b =>
      obtain ⟨hc1, hc2⟩ := hcon
      simp only [] at hc1 hc2
      rw [hc1, hc2]

/-- Concrete inputs for the C2 counterexample: two overlapping regions on a
3×3 grid. -/
def c2xCells : List RawCellData :=
  [⟨⟨2, 2⟩, CellValue.empty, none, none, none, none, none⟩]

def c2xFormatted : List (CellCoord × String) := [(⟨1, 1⟩, "A"), (⟨0, 0⟩, "B")]

def c2xRegions : List MergedRegion :=
  [MergedRegion.new (CellRange.new ⟨1, 1⟩ ⟨2, 2⟩),
    MergedRegion.new (CellRange.new ⟨0, 0⟩ ⟨1, 1⟩)]

/-- C2 counterexample — with two overlapping in-bounds merge regions the build
succeeds on a 3×3 grid whose cell (2, 2), inside the first region, renders
`"A"` while the first region's parent (1, 1) renders `"B"`: a region cell is
not byte-for-byte equal to its region parent's rendering. -/
theorem claim2_counterexample :
    (LogicalGrid.build c2xCells c2xFormatted c2xRegions .dataDuplication).map
        (fun g => (g.rows, g.cols,
          (gridGet g.cells 2 2).map Cell.content,
          (gridGet g.cells 1 1).map Cell.content))
      = some (3, 3, some "A", some "B") := by decide

/-- Concrete inputs for the C2 witness: a single two-cell region on a 2×3
grid. -/
def c2wCells : List RawCellData :=
  [⟨⟨1, 2⟩, CellValue.empty, none, none, none, none, none⟩]

def c2wFormatted : List (CellCoord × String) := [(⟨0, 0⟩, "H")]

def c2wRegion : MergedRegion := MergedRegion.new (CellRange.new ⟨0, 0⟩ ⟨0, 1⟩)

def c2wGrid : LogicalGrid :=
  ⟨[[Cell.new "H", Cell.new_merged "H" ⟨0, 0⟩, Cell.empty],
    [Cell.empty, Cell.empty, Cell.empty]], 2, 3⟩

/-- C2 witness — the amended statement applied to a concrete successful
build. -/
theorem claim2_witness :
    ∃ pcell, gridGet c2wGrid.cells c2wRegion.parent.row c2wRegion.parent.col
        = some pcell ∧
      ((⟨0, 1⟩ : CellCoord) ≠ c2wRegion.parent →
        gridGet c2wGrid.cells (0 : Nat) (1 : Nat)
          = some (Cell.new_merged pcell.content c2wRegion.parent)) :=
  claim2_amended c2wCells c2wFormatted [c2wRegion] c2wGrid
    (by decide)
    (List.Pairwise.cons (by simp) List.Pairwise.nil)
    (by decide) c2wRegion (by simp) ⟨0, 1⟩ (by decide)

/-! ## Calendar model (chrono `NaiveDate`, proleptic Gregorian)

The source delegates date arithmetic to the external chrono crate:
`NaiveDate::from_ymd_opt` for the epoch, `checked_add_signed(Duration::days)`
for the shift, and `format("%Y-%m-%d")` for rendering.  chrono implements the
proleptic Gregorian calendar, embedded here directly.  Day counts are measured
from 1899-01-01 (day 0); dates before that day and dates beyond
`chronoMaxDays` are mapped to the overflow error — no claim input reaches
either bound. -/

/-- Gregorian leap-year rule. -/
def isLeapYear (y : Nat) : Bool :=
  (y % 4 == 0 && y % 100 != 0) || y % 400 == 0

def daysInYear (y : Nat) : Nat := if isLeapYear y then 366 else 365

def monthLengths (leap : Bool) : List Nat :=
  [31, if leap then 29 else 28, 31, 30, 31, 30, 31, 31, 30, 31, 30, 31]

/-- One-based month and day from a zero-based day-of-year. -/
def monthDayGo : Nat → Nat → List Nat → Nat × Nat
  | m, d, [] => (m, d + 1)
  | m, d, len :: rest =>
    if d < len then (m, d + 1) else monthDayGo (m + 1) (d - len) rest

/-- Year and zero-based day-of-year from a day count; fuel-based (each
iteration consumes at least 365 days, so `n` iterations always suffice). -/
def yearDayGo : Nat → Nat → Nat → Nat × Nat
  | 0, n, y => (y, n)
  | fuel + 1, n, y =>
    if n < daysInYear y then (y, n)
    else yearDayGo fuel (n - daysInYear y) (y + 1)

/-- Civil date (year, month, day) of day `n` counted from 1899-01-01. -/
def dateFromDays (n : Nat) : Nat × Nat × Nat :=
  let yd := yearDayGo n n 1899
  let md := monthDayGo 1 yd.2 (monthLengths (isLeapYear yd.1))
  (yd.1, md.1, md.2)

def digitChar (d : Nat) : Char := Char.ofNat (48 + d)

/-- Zero-padded fixed-width decimal rendering (`{:0w}` in Rust formatting /
chrono's numeric fields), most significant digit first. -/
def padDigits : Nat → Nat → List Char
  | 0, _ => []
  | w + 1, n => digitChar (n / 10 ^ w) :: padDigits w (n % 10 ^ w)

def pad4 (n : Nat) : List Char := padDigits 4 n

def pad2 (n : Nat) : List Char := padDigits 2 n

/-- Rendering of chrono's `%Y-%m-%d` for years in 0..9999. -/
def renderYmd (ymd : Nat × Nat × Nat) : List Char :=
  pad4 ymd.1 ++ '-' :: (pad2 ymd.2.1 ++ '-' :: pad2 ymd.2.2)

/-- Date format configuration (src/api.rs `DateFormat`). -/
inductive DateFormat where
  | iso8601
  | custom (pattern : String)
deriving DecidableEq, Repr

/-- Error taxonomy fragment reachable from the embedded formatter paths
(src/error.rs `XlsxToMdError`); only the constructor these paths can produce
is modelled. -/
inductive XlsxToMdError where
  | config (msg : String)
deriving DecidableEq, Repr

instance exceptDecEq {ε α : Type} [DecidableEq ε] [DecidableEq α] :
    DecidableEq (Except ε α) := fun x y =>
  match x, y with
  | .ok a, .ok b =>
    if h : a = b then .isTrue (h ▸ rfl)
    else .isFalse fun hc => h (by injection hc)
  | .error a, .error b =>
    if h : a = b then .isTrue (h ▸ rfl)
    else .isFalse fun hc => h (by injection hc)
  | .ok _, .error _ => .isFalse fun hc => Except.noConfusion hc
  | .error _, .ok _ => .isFalse fun hc => Except.noConfusion hc

/-- Day count of 1899-12-30 (the 1900-system epoch) from 1899-01-01. -/
def epochDays1900 : Nat := 363

/-- Day count of 1904-01-01 (the 1904-system epoch) from 1899-01-01. -/
def epochDays1904 : Nat := 1825

/-- Modelled from the spec: chrono's `NaiveDate` range is bounded and
`checked_add_signed` returns `None` beyond it; the exact chrono maximum (year
262143) is irrelevant to every claim, so any bound beyond year 9999 behaves
identically on claim inputs. -/
def chronoMaxDays : Int := 100000000

/-- Modelled from the spec: chrono's strftime-style rendering used by
`DateFormat::Custom` is an external collaborator; this model substitutes the
`%Y`/`%m`/`%d` fields and copies other characters verbatim (the fragment of
the grammar the specification's configuration surface uses).  No claim
depends on the custom-pattern output. -/
def strftimeModel (ymd : Nat × Nat × Nat) : List Char → List Char
  | [] => []
  | '%' :: 'Y' :: rest => pad4 ymd.1 ++ strftimeModel ymd rest
  | '%' :: 'm' :: rest => pad2 ymd.2.1 ++ strftimeModel ymd rest
  | '%' :: 'd' :: rest => pad2 ymd.2.2 ++ strftimeModel ymd rest
  | c :: rest => c :: strftimeModel ymd rest

/-- Total day count (from 1899-01-01) of the date the source builds:
`epoch + serial.floor() + days_offset` (src/formatter.rs lines 238-259). -/
def dateTotalDays (serial : ℚ) (is_1904 : Bool) : Int :=
  (if is_1904 then (epochDays1904 : Int) else (epochDays1900 : Int)) +
    serial.floor + (if is_1904 then 0 else 1)

/-- Embedding of `DateFormatter::format` (src/formatter.rs lines 232-274).
The `f64` serial is an exact rational; `floor` is exact on both.  A date
outside the modelled chrono range yields the `Config` error exactly as the
source maps `checked_add_signed`'s `None`. -/
def DateFormatter.format (serial_value : ℚ) (date_format : DateFormat)
    (is_1904 : Bool) : Except XlsxToMdError String :=
  if dateTotalDays serial_value is_1904 < 0 ∨
      chronoMaxDays < dateTotalDays serial_value is_1904 then
    Except.error (XlsxToMdError.config "Date calculation overflow")
  else
    match date_format with
    | DateFormat.iso8601 =>
      Except.ok (String.mk (renderYmd
        (dateFromDays (dateTotalDays serial_value is_1904).toNat)))
    | DateFormat.custom pattern =>
      Except.ok (String.mk (strftimeModel
        (dateFromDays (dateTotalDays serial_value is_1904).toNat)
        pattern.toList))

/-! ### Monotonicity of the calendar conversion -/

def mdKey (p : Nat × Nat) : Nat := p.1 * 100 + p.2

def dateKey (t : Nat × Nat × Nat) : Nat := t.1 * 10000 + t.2.1 * 100 + t.2.2

theorem monthDayGo_succ_key : ∀ leap : Bool, ∀ d < 365,
    mdKey (monthDayGo 1 d (monthLengths leap)) <
      mdKey (monthDayGo 1 (d + 1) (monthLengths leap)) := by decide

theorem monthDayGo_bounds : ∀ d < 366, ∀ leap : Bool,
    (d < 365 ∨ leap = true) →
    1 ≤ (monthDayGo 1 d (monthLengths leap)).1 ∧
    (monthDayGo 1 d (monthLengths leap)).1 ≤ 12 ∧
    1 ≤ (monthDayGo 1 d (monthLengths leap)).2 ∧
    (monthDayGo 1 d (monthLengths leap)).2 ≤ 31 := by decide

theorem monthDayGo_key_mono (leap : Bool) :
    ∀ d2 d1, d1 < d2 → d2 ≤ 365 →
      mdKey (monthDayGo 1 d1 (monthLengths leap)) <
        mdKey (monthDayGo 1 d2 (monthLengths leap)) := by
  intro d2
  induction d2 with
  | zero => omega
  | succ k ih =>
    intro d1 h hb
    by_cases hk : d1 = k
    · subst hk
      exact monthDayGo_succ_key leap d1 (by omega)
    · exact lt_trans (ih d1 (by omega) (by omega))
        (monthDayGo_succ_key leap k (by omega))

theorem daysInYear_pos (y : Nat) : 365 ≤ daysInYear y := by
  unfold daysInYear
  split <;> omega

theorem yearDayGo_spec : ∀ fuel n y, n ≤ fuel →
    y ≤ (yearDayGo fuel n y).1 ∧
    (yearDayGo fuel n y).2 < daysInYear (yearDayGo fuel n y).1 ∧
    (yearDayGo fuel n y).1 ≤ y + n / 365 := by
  intro fuel
  induction fuel with
  | zero =>
    intro n y hn
    have hn0 : n = 0 := by omega
    subst hn0
    exact ⟨le_refl y, by have := daysInYear_pos y; simpa [yearDayGo] using by omega,
      by simp [yearDayGo]⟩
  | succ f ih =>
    intro n y hn
    by_cases hc : n < daysInYear y
    · rw [show yearDayGo (f + 1) n y = (y, n) by simp [yearDayGo, hc]]
      exact ⟨le_refl y, hc, Nat.le_add_right y _⟩
    · have h365 := daysInYear_pos y
      rw [show yearDayGo (f + 1) n y
          = yearDayGo f (n - daysInYear y) (y + 1) by simp [yearDayGo, hc]]
      obtain ⟨ha, hb, hcc⟩ := ih (n - daysInYear y) (y + 1) (by omega)
      refine ⟨by omega, hb, ?_⟩
      have hA : n - daysInYear y ≤ n - 365 := by omega
      have hdiv := Nat.add_div_right (n - 365) (show 0 < 365 by omega)
      rw [show n - 365 + 365 = n by omega] at hdiv
      have hC := Nat.div_le_div_right (c := 365) hA
      omega

theorem yearDayGo_mono : ∀ fuel2 fuel1 n1 n2 y, n1 ≤ fuel1 → n2 ≤ fuel2 →
    n1 < n2 →
    ((yearDayGo fuel1 n1 y).1 < (yearDayGo fuel2 n2 y).1 ∨
      ((yearDayGo fuel1 n1 y).1 = (yearDayGo fuel2 n2 y).1 ∧
        (yearDayGo fuel1 n1 y).2 < (yearDayGo fuel2 n2 y).2)) := by
  intro fuel2
  induction fuel2 with
  | zero => intro fuel1 n1 n2 y h1 h2 h12; omega
  | succ f ih =>
    intro fuel1 n1 n2 y h1 h2 h12
    by_cases hn2 : n2 < daysInYear y
    · have hn1 : n1 < daysInYear y := by omega
      have e1 : yearDayGo fuel1 n1 y = (y, n1) := by
        cases fuel1 with
        | zero => rfl
        | succ f1 => simp [yearDayGo, hn1]
      have e2 : yearDayGo (f + 1) n2 y = (y, n2) := by simp [yearDayGo, hn2]
      rw [e1, e2]
      exact Or.inr ⟨rfl, h12⟩
    · have h365 := daysInYear_pos y
      have e2 : yearDayGo (f + 1) n2 y
          = yearDayGo f (n2 - daysInYear y) (y + 1) := by simp [yearDayGo, hn2]
      have hrec2 : n2 - daysInYear y ≤ f := by omega
      by_cases hn1 : n1 < daysInYear y
      · have e1 : yearDayGo fuel1 n1 y = (y, n1) := by
          cases fuel1 with
          | zero =>
            have : n1 = 0 := by omega
            subst this
            rfl
          | succ f1 => simp [yearDayGo, hn1]
        rw [e1, e2]
        left
        have := (yearDayGo_spec f (n2 - daysInYear y) (y + 1) hrec2).1
        simpa using by omega
      · cases fuel1 with
        | zero => omega
        | succ f1 =>
          have e1 : yearDayGo (f1 + 1) n1 y
              = yearDayGo f1 (n1 - daysInYear y) (y + 1) := by
            simp [yearDayGo, hn1]
          rw [e1, e2]
          exact ih f1 _ _ (y + 1) (by omega) hrec2 (by omega)

theorem dateFromDays_bounds (n : Nat) :
    1899 ≤ (dateFromDays n).1 ∧ (dateFromDays n).1 ≤ 1899 + n / 365 ∧
    1 ≤ (dateFromDays n).2.1 ∧ (dateFromDays n).2.1 ≤ 12 ∧
    1 ≤ (dateFromDays n).2.2 ∧ (dateFromDays n).2.2 ≤ 31 := by
  unfold dateFromDays
  obtain ⟨hy1, hy2, hy3⟩ := yearDayGo_spec n n 1899 (le_refl n)
  set yd := yearDayGo n n 1899
  have hdm : 1 ≤ (monthDayGo 1 yd.2 (monthLengths (isLeapYear yd.1))).1 ∧
      (monthDayGo 1 yd.2 (monthLengths (isLeapYear yd.1))).1 ≤ 12 ∧
      1 ≤ (monthDayGo 1 yd.2 (monthLengths (isLeapYear yd.1))).2 ∧
      (monthDayGo 1 yd.2 (monthLengths (isLeapYear yd.1))).2 ≤ 31 := by
    cases hleap : isLeapYear yd.1 with
    | true =>
      have hd : yd.2 < 366 := by
        have := hy2
        unfold daysInYear at this
        rw [hleap] at this
        simpa using this
      exact monthDayGo_bounds yd.2 hd true (Or.inr rfl)
    | false =>
      have hd : yd.2 < 365 := by
        have := hy2
        unfold daysInYear at this
        rw [hleap] at this
        simpa using this
      exact monthDayGo_bounds yd.2 (by omega) false (Or.inl hd)
  exact ⟨hy1, hy3, hdm.1, hdm.2.1, hdm.2.2.1, hdm.2.2.2⟩

theorem dateKey_eq (n : Nat) :
    dateKey (dateFromDays n)
      = (yearDayGo n n 1899).1 * 10000 +
        mdKey (monthDayGo 1 (yearDayGo n n 1899).2
          (monthLengths (isLeapYear (yearDayGo n n 1899).1))) := by
  simp only [dateFromDays, dateKey, mdKey]
  ring

theorem dateKey_mono {n1 n2 : Nat} (h : n1 < n2) :
    dateKey (dateFromDays n1) < dateKey (dateFromDays n2) := by
  have hmono := yearDayGo_mono n2 n1 n1 n2 1899 (le_refl n1) (le_refl n2) h
  have hspec2 := yearDayGo_spec n2 n2 1899 (le_refl n2)
  obtain ⟨b11, b12, b13, b14, b15, b16⟩ := dateFromDays_bounds n1
  obtain ⟨b21, b22, b23, b24, b25, b26⟩ := dateFromDays_bounds n2
  rcases hmono with hy | ⟨hyeq, hd⟩
  · have hylt : (dateFromDays n1).1 < (dateFromDays n2).1 := hy
    unfold dateKey
    omega
  · rw [dateKey_eq n1, dateKey_eq n2, hyeq]
    have hd365 : (yearDayGo n2 n2 1899).2 ≤ 365 := by
      have h1 := hspec2.2.1
      have h2 : daysInYear (yearDayGo n2 n2 1899).1 ≤ 366 := by
        unfold daysInYear
        split <;> omega
      omega
    have hkey := monthDayGo_key_mono (isLeapYear (yearDayGo n2 n2 1899).1)
      (yearDayGo n2 n2 1899).2 (yearDayGo n1 n1 1899).2 hd hd365
    omega

/-! ### Lexicographic comparison of rendered dates -/

theorem digitChar_lt {a b : Nat} (ha : a < 10) (hb : b < 10) (h : a < b) :
    digitChar a < digitChar b := by
  have hall : ∀ x < 10, ∀ y < 10, x < y → digitChar x < digitChar y := by decide
  exact hall a ha b hb h

theorem padDigits_lex :
    ∀ (w n1 n2 : Nat) (t1 t2 : List Char), n1 < n2 → n2 < 10 ^ w →
      List.Lex (· < ·) (padDigits w n1 ++ t1) (padDigits w n2 ++ t2) := by
  intro w
  induction w with
  | zero => intro n1 n2 t1 t2 h hb; omega
  | succ w ih =>
    intro n1 n2 t1 t2 h hb
    have hP : 0 < 10 ^ w := Nat.pos_pow_of_pos w (by omega)
    have hpow : 10 ^ (w + 1) = 10 ^ w * 10 := by ring
    have hq2 : n2 / 10 ^ w < 10 := by
      rw [Nat.div_lt_iff_lt_mul hP]
      omega
    have hq1 : n1 / 10 ^ w < 10 := by
      rw [Nat.div_lt_iff_lt_mul hP]
      omega
    unfold padDigits
    by_cases hq : n1 / 10 ^ w < n2 / 10 ^ w
    · exact List.Lex.rel (digitChar_lt hq1 hq2 hq)
    · have hqe : n1 / 10 ^ w = n2 / 10 ^ w := by
        have := Nat.div_le_div_right (c := 10 ^ w) (Nat.le_of_lt h)
        omega
      rw [hqe]
      apply List.Lex.cons
      apply ih
      · have e1 := Nat.div_add_mod n1 (10 ^ w)
        have e2 := Nat.div_add_mod n2 (10 ^ w)
        rw [hqe] at e1
        omega
      · exact Nat.mod_lt n2 hP

theorem lex_append_same {r : Char → Char → Prop} :
    ∀ (p l1 l2 : List Char), List.Lex r l1 l2 →
      List.Lex r (p ++ l1) (p ++ l2) := by
  intro p
  induction p with
  | nil => intro l1 l2 h; exact h
  | cons c rest ih => intro l1 l2 h; exact List.Lex.cons (ih l1 l2 h)

theorem renderYmd_lex {y1 m1 d1 y2 m2 d2 : Nat}
    (hy1 : y1 < 10000) (hy2 : y2 < 10000) (hm2 : m2 < 100) (hd2 : d2 < 100)
    (hkey : y1 * 10000 + m1 * 100 + d1 < y2 * 10000 + m2 * 100 + d2)
    (hm1 : m1 < 100) (hd1 : d1 < 100) :
    List.Lex (· < ·) (renderYmd (y1, m1, d1)) (renderYmd (y2, m2, d2)) := by
  have hcase : y1 < y2 ∨ (y1 = y2 ∧ (m1 < m2 ∨ (m1 = m2 ∧ d1 < d2))) := by
    by_cases h1 : y1 < y2
    · exact Or.inl h1
    · by_cases h2 : y1 = y2
      · subst h2
        by_cases h3 : m1 < m2
        · exact Or.inr ⟨rfl, Or.inl h3⟩
        · by_cases h4 : m1 = m2
          · subst h4; exact Or.inr ⟨rfl, Or.inr ⟨rfl, by omega⟩⟩
          · omega
      · omega
  unfold renderYmd pad4 pad2
  simp only []
  rcases hcase with hy | ⟨rfl, hmd⟩
  · exact padDigits_lex 4 y1 y2 _ _ hy (by omega)
  · apply lex_append_same
    apply List.Lex.cons
    rcases hmd with hm | ⟨rfl, hd⟩
    · exact padDigits_lex 2 m1 m2 _ _ hm (by omega)
    · apply lex_append_same
      apply List.Lex.cons
      have := padDigits_lex 2 d1 d2 [] [] hd (by omega)
      simpa using this

theorem string_mk_lt {l1 l2 : List Char} (h : List.Lex (· < ·) l1 l2) :
    String.mk l1 < String.mk l2 := by
  rw [String.lt_iff_toList_lt]
  exact h

/-! ### C6 — date rendering monotonicity -/

theorem rat_floor_natCast (s : Nat) : ((s : ℚ)).floor = (s : Int) := by
  rw [Rat.floor_def']
  simp

theorem dateTotalDays_natCast (s : Nat) (b : Bool) :
    dateTotalDays (s : ℚ) b = (s : Int) + (if b then 1825 else 364) := by
  unfold dateTotalDays
  rw [rat_floor_natCast]
  cases b <;> simp [epochDays1900, epochDays1904] <;> omega

theorem dateFormatter_natCast (s : Nat) (b : Bool) (hs : s < 50000) :
    DateFormatter.format (s : ℚ) DateFormat.iso8601 b
      = Except.ok (String.mk (renderYmd
          (dateFromDays (s + (if b then 1825 else 364))))) := by
  unfold DateFormatter.format
  rw [dateTotalDays_natCast]
  rw [if_neg (by cases b <;> simp [chronoMaxDays] <;> omega)]
  have htn : ((s : Int) + (if b then 1825 else 364)).toNat
      = s + (if b then 1825 else 364) := by cases b <;> simp <;> omega
  rw [htn]

/-- C6 amended — for integer serials `s1 < s2` in `[0, 50 000)` the ISO-8601
date rendering is strictly increasing as strings under both epochs.  (The
claim as stated over all real serial values fails: two serials with the same
integer part render identically — see the counterexample.) -/
theorem claim6_amended (s1 s2 : Nat) (is_1904 : Bool)
    (h12 : s1 < s2) (hs2 : s2 < 50000) :
    ∃ r1 r2 : String,
      DateFormatter.format (s1 : ℚ) DateFormat.iso8601 is_1904
        = Except.ok r1 ∧
      DateFormatter.format (s2 : ℚ) DateFormat.iso8601 is_1904
        = Except.ok r2 ∧ r1 < r2 := by
  set n1 := s1 + (if is_1904 then 1825 else 364) with hn1
  set n2 := s2 + (if is_1904 then 1825 else 364) with hn2
  refine ⟨_, _, dateFormatter_natCast s1 is_1904 (by omega),
    dateFormatter_natCast s2 is_1904 hs2, ?_⟩
  apply string_mk_lt
  obtain ⟨a11, a12, a13, a14, a15, a16⟩ := dateFromDays_bounds n1
  obtain ⟨a21, a22, a23, a24, a25, a26⟩ := dateFromDays_bounds n2
  have hkey : dateKey (dateFromDays n1) < dateKey (dateFromDays n2) :=
    dateKey_mono (by cases is_1904 <;> simp [hn1, hn2] <;> omega)
  have hy1b : (dateFromDays n1).1 < 10000 := by
    have hdiv : n1 / 365 ≤ 51824 / 365 :=
      Nat.div_le_div_right (by cases is_1904 <;> simp [hn1] <;> omega)
    have : (51824 : Nat) / 365 = 141 := by norm_num
    omega
  have hy2b : (dateFromDays n2).1 < 10000 := by
    have hdiv : n2 / 365 ≤ 51824 / 365 :=
      Nat.div_le_div_right (by cases is_1904 <;> simp [hn2] <;> omega)
    have : (51824 : Nat) / 365 = 141 := by norm_num
    omega
  have hr : dateFromDays n1
      = ((dateFromDays n1).1, (dateFromDays n1).2.1, (dateFromDays n1).2.2) := rfl
  have hr2 : dateFromDays n2
      = ((dateFromDays n2).1, (dateFromDays n2).2.1, (dateFromDays n2).2.2) := rfl
  rw [hr, hr2]
  exact renderYmd_lex hy1b hy2b (by omega) (by omega)
    (by unfold dateKey at hkey; exact hkey) (by omega) (by omega)

/-- C6 witness — the amended statement evaluated at serials 0 < 1 under the
1900 epoch. -/
theorem claim6_witness :
    (0 : Nat) < 1 ∧ (1 : Nat) < 50000 ∧
      ∃ r1 r2 : String,
        DateFormatter.format ((0 : Nat) : ℚ) DateFormat.iso8601 false
          = Except.ok r1 ∧
        DateFormatter.format ((1 : Nat) : ℚ) DateFormat.iso8601 false
          = Except.ok r2 ∧ r1 < r2 :=
  ⟨by decide, by decide, claim6_amended 0 1 false (by decide) (by decide)⟩

/-- C6 counterexample — the claim quantifies over all serial values: the
fractional serials 1/4 < 3/4 both lie in [0, 50 000) yet render to the same
date string, so `render_date(s1) < render_date(s2)` fails. -/
theorem claim6_counterexample :
    (mkRat 1 4) < (mkRat 3 4) ∧
    DateFormatter.format (mkRat 1 4) DateFormat.iso8601 false
      = Except.ok "1899-12-31" ∧
    DateFormatter.format (mkRat 3 4) DateFormat.iso8601 false
      = Except.ok "1899-12-31" ∧
    ¬("1899-12-31".toList < "1899-12-31".toList) := by
  refine ⟨by decide, by decide, by decide, by decide⟩

/-! ## Number-format interpreter (src/format/tokens.rs, sections.rs,
parser.rs) -/

/-- Format token (src/format/tokens.rs `FormatToken`). -/
inductive FormatToken where
  | year (n : Nat)
  | month (n : Nat)
  | day (n : Nat)
  | hour (n : Nat)
  | minute (n : Nat)
  | second (n : Nat)
  | integerZero (n : Nat)
  | integerHash
  | decimalPoint
  | decimalZero (n : Nat)
  | thousandSeparator
  | percent
  | literal (s : String)
  | color (s : String)
  | textPlaceholder
deriving DecidableEq, Repr

/-- Embedding of `FormatToken::is_datetime`. -/
def FormatToken.is_datetime : FormatToken → Bool
  | .year _ | .month _ | .day _ | .hour _ | .minute _ | .second _ => true
  | _ => false

/-- Embedding of `FormatToken::is_numeric`. -/
def FormatToken.is_numeric : FormatToken → Bool
  | .integerZero _ | .integerHash | .decimalPoint | .decimalZero _
  | .thousandSeparator | .percent => true
  | _ => false

/-- Section kind (src/format/sections.rs `SectionKind`). -/
inductive SectionKind where
  | positive
  | negative
  | zero
  | text
deriving DecidableEq, Repr

/-- Format section (src/format/sections.rs `FormatSection`; the `condition`
field is `None` throughout the source and is omitted). -/
structure FormatSection where
  kind : SectionKind
  tokens : List FormatToken
deriving DecidableEq, Repr

def FormatSection.new (kind : SectionKind) : FormatSection := ⟨kind, []⟩

def FormatSection.is_datetime (s : FormatSection) : Bool :=
  s.tokens.any FormatToken.is_datetime

def FormatSection.is_numeric (s : FormatSection) : Bool :=
  s.tokens.any FormatToken.is_numeric

/-- Loop of `FormatParser::split_sections`: `;` outside `[...]` separates
sections; the trailing buffer is kept only when non-empty. -/
def splitSectionsGo : List Char → List Char → Bool → List (List Char)
  | [], current, _ => if current.isEmpty then [] else [current]
  | ch :: rest, current, in_brackets =>
    if ch == '[' then splitSectionsGo rest (current ++ [ch]) true
    else if ch == ']' then splitSectionsGo rest (current ++ [ch]) false
    else if ch == ';' && !in_brackets then
      current :: splitSectionsGo rest [] in_brackets
    else splitSectionsGo rest (current ++ [ch]) in_brackets

/-- Embedding of `FormatParser::split_sections`. -/
def split_sections (format_string : List Char) : List (List Char) :=
  splitSectionsGo format_string [] false

/-- Embedding of `count_consecutive`: length of the longest run of `target`
at the front, plus the remainder. -/
def count_consecutive (target : Char) : List Char → Nat × List Char
  | [] => (0, [])
  | c :: rest =>
    if c == target then
      let r := count_consecutive target rest
      (r.1 + 1, r.2)
    else (0, c :: rest)

/-- Embedding of `count_consecutive_case_insensitive` (the source compares
uppercased and lowercased forms; for the ASCII letters it is applied to this
is case-insensitive equality). -/
def count_consecutive_ci (target : Char) : List Char → Nat × List Char
  | [] => (0, [])
  | c :: rest =>
    if c.toUpper == target.toUpper || c.toLower == target.toLower then
      let r := count_consecutive_ci target rest
      (r.1 + 1, r.2)
    else (0, c :: rest)

/-- Rust `str::trim` on a character list (Unicode-whitespace both ends). -/
def strTrim (s : List Char) : List Char :=
  ((s.dropWhile Char.isWhitespace).reverse.dropWhile Char.isWhitespace).reverse

/-- Loop of `FormatParser::parse_section` (src/format/parser.rs lines
125-239).  The state mirrors the source: `in_quotes`, `in_brackets`, the
shared `bracket_content` buffer (used both for quoted literals and bracket
contents), and the token list.  The match arms appear in source order; note
that a `]` outside brackets is discarded even inside quotes, exactly as the
source's second `']'` arm does.  `fuel` bounds the iteration count; every
iteration consumes at least one character, so `length + 1` always suffices. -/
def parseSectionGo : Nat → List Char → Bool → Bool → List Char →
    List FormatToken → List FormatToken
  | 0, _, _, _, _, tokens => tokens
  | fuel + 1, chars, in_quotes, in_brackets, bracket_content, tokens =>
    match chars with
    | [] => tokens
    | ch :: rest =>
      if ch == '"' then
        if in_quotes then
          let tokens1 := if bracket_content.isEmpty then tokens
            else tokens ++ [FormatToken.literal (String.mk bracket_content)]
          parseSectionGo fuel rest false in_brackets [] tokens1
        else parseSectionGo fuel rest true in_brackets bracket_content tokens
      else if ch == '[' && !in_quotes then
        parseSectionGo fuel rest in_quotes true [] tokens
      else if ch == ']' && !in_brackets then
        parseSectionGo fuel rest in_quotes in_brackets bracket_content tokens
      else if ch == ']' && in_brackets then
        let tokens1 :=
          if bracket_content.head?.elim false Char.isAlpha then
            tokens ++ [FormatToken.color (String.mk bracket_content)]
          else tokens
        parseSectionGo fuel rest in_quotes false [] tokens1
      else if in_quotes then
        parseSectionGo fuel rest in_quotes in_brackets
          (bracket_content ++ [ch]) tokens
      else if in_brackets then
        parseSectionGo fuel rest in_quotes in_brackets
          (bracket_content ++ [ch]) tokens
      else if ch == '@' then
        parseSectionGo fuel rest in_quotes in_brackets bracket_content
          (tokens ++ [FormatToken.textPlaceholder])
      else if ch == '0' then
        let r := count_consecutive '0' rest
        let tok := if (tokens.getLast?).elim true
            (fun t => !(t == FormatToken.decimalPoint)) then
          FormatToken.integerZero (r.1 + 1)
        else FormatToken.decimalZero (r.1 + 1)
        parseSectionGo fuel r.2 in_quotes in_brackets bracket_content
          (tokens ++ [tok])
      else if ch == '#' then
        parseSectionGo fuel rest in_quotes in_brackets bracket_content
          (tokens ++ [FormatToken.integerHash])
      else if ch == '.' then
        parseSectionGo fuel rest in_quotes in_brackets bracket_content
          (tokens ++ [FormatToken.decimalPoint])
      else if ch == ',' then
        parseSectionGo fuel rest in_quotes in_brackets bracket_content
          (tokens ++ [FormatToken.thousandSeparator])
      else if ch == '%' then
        parseSectionGo fuel rest in_quotes in_brackets bracket_content
          (tokens ++ [FormatToken.percent])
      else if ch == 'y' || ch == 'Y' then
        let r := count_consecutive_ci 'y' rest
        parseSectionGo fuel r.2 in_quotes in_brackets bracket_content
          (tokens ++ [FormatToken.year (r.1 + 1)])
      else if ch == 'm' || ch == 'M' then
        let r := count_consecutive_ci 'm' rest
        let is_minute := tokens.any (fun t =>
            match t with
            | FormatToken.hour _ => true
            | _ => false) ||
          (r.2.head?).elim false (fun c => c == ':' || c == 'h' || c == 'H')
        let tok := if is_minute then FormatToken.minute (r.1 + 1)
          else FormatToken.month (r.1 + 1)
        parseSectionGo fuel r.2 in_quotes in_brackets bracket_content
          (tokens ++ [tok])
      else if ch == 'd' || ch == 'D' then
        let r := count_consecutive_ci 'd' rest
        parseSectionGo fuel r.2 in_quotes in_brackets bracket_content
          (tokens ++ [FormatToken.day (r.1 + 1)])
      else if ch == 'h' || ch == 'H' then
        let r := count_consecutive_ci 'h' rest
        parseSectionGo fuel r.2 in_quotes in_brackets bracket_content
          (tokens ++ [FormatToken.hour (r.1 + 1)])
      else if ch == 's' || ch == 'S' then
        let r := count_consecutive_ci 's' rest
        parseSectionGo fuel r.2 in_quotes in_brackets bracket_content
          (tokens ++ [FormatToken.second (r.1 + 1)])
      else
        parseSectionGo fuel rest in_quotes in_brackets bracket_content
          (tokens ++ [FormatToken.literal (String.mk [ch])])

/-- Embedding of `FormatParser::parse_section` (always `Ok` in the source). -/
def parse_section (section_str : List Char) (kind : SectionKind) :
    FormatSection :=
  ⟨kind, parseSectionGo (section_str.length + 1) section_str false false [] []⟩

/-- Parsed format string (src/format/parser.rs `FormatParser`; the stored
`format_string` field is unused and omitted). -/
structure FormatParser where
  sections : List FormatSection
deriving DecidableEq, Repr

/-- Section role by position (`match idx` in `FormatParser::parse`; the
source breaks after index 3, and since indices only increase, skipping the
later entries is equivalent). -/
def sectionKindOfIdx : Nat → Option SectionKind
  | 0 => some SectionKind.positive
  | 1 => some SectionKind.negative
  | 2 => some SectionKind.zero
  | 3 => some SectionKind.text
  | _ => none

/-- Embedding of `FormatParser::parse` (always `Ok` in the source: every
section parses, and an empty section list is replaced by one default
positive section). -/
def FormatParser.parse (format_string : List Char) : FormatParser :=
  let strs := split_sections format_string
  let sections := strs.enum.filterMap fun p =>
    (sectionKindOfIdx p.1).map fun kind => parse_section (strTrim p.2) kind
  if sections.isEmpty then ⟨[FormatSection.new SectionKind.positive]⟩
  else ⟨sections⟩

/-- Embedding of `FormatParser::select_section`: positive values take the
first section, negative ones section 1 (falling back to the first), zero
section 2 (falling back to the first).  `parse` never produces an empty
section list, so the `headD` default is unreachable. -/
def FormatParser.select_section (p : FormatParser) (value : ℚ) :
    FormatSection :=
  if 0 < value then p.sections.headD (FormatSection.new SectionKind.positive)
  else if value < 0 then
    (p.sections.get? 1).getD
      (p.sections.headD (FormatSection.new SectionKind.positive))
  else
    (p.sections.get? 2).getD
      (p.sections.headD (FormatSection.new SectionKind.positive))

/-- `f64::abs`. -/
def ratAbs (q : ℚ) : ℚ := if q < 0 then -q else q

/-- `f64::round` (half away from zero) on a non-negative value. -/
def ratRoundNonneg (q : ℚ) : Int := (q + mkRat 1 2).floor

/-- Rendering of a signed integer (`i64`/`f64` integral Display). -/
def intToDecimal (i : Int) : List Char :=
  if i < 0 then '-' :: natToDecimal i.natAbs else natToDecimal i.natAbs

/-- Modelled from the spec: the value's default textual rendering
(`f64::to_string`, an external collaborator).  No claim constrains this
fallback's exact text; the model prints integral values exactly and a
`num/den` form otherwise. -/
def ratToDisplay (q : ℚ) : String :=
  if q.den = 1 then String.mk (intToDecimal q.num)
  else String.mk (intToDecimal q.num ++ '/' :: natToDecimal q.den)

/-- Flags and digit totals collected by the first loop of
`format_numeric`. -/
structure NumericShape where
  has_percent : Bool
  has_thousand_separator : Bool
  total_integer_zeros : Nat
  total_decimal_zeros : Nat
  has_decimal_point : Bool
deriving DecidableEq, Repr

def numericShape (tokens : List FormatToken) : NumericShape :=
  tokens.foldl (fun sh t =>
    match t with
    | FormatToken.integerZero count =>
      { sh with total_integer_zeros := sh.total_integer_zeros + count }
    | FormatToken.integerHash =>
      { sh with total_integer_zeros := sh.total_integer_zeros + 1 }
    | FormatToken.decimalPoint => { sh with has_decimal_point := true }
    | FormatToken.decimalZero count =>
      { sh with total_decimal_zeros := sh.total_decimal_zeros + count }
    | FormatToken.thousandSeparator =>
      { sh with has_thousand_separator := true }
    | FormatToken.percent => { sh with has_percent := true }
    | _ => sh) ⟨false, false, 0, 0, false⟩

/-- Zero padding to a minimum width (`format!("{:0w$}")`; no padding when the
digits already reach the width). -/
def padLeftZeros (digits : List Char) (width : Nat) : List Char :=
  List.replicate (width - digits.length) '0' ++ digits

/-- Embedding of `add_thousand_separators`: a comma after every character
whose distance from the end is a positive multiple of three. -/
def add_thousand_separators (s : List Char) : List Char :=
  s.enum.flatMap fun p =>
    if (s.length - p.1 - 1) % 3 == 0 && p.1 < s.length - 1 then [p.2, ',']
    else [p.2]

/-- Token walk of `format_numeric` (second loop).  The source tracks
`int_pos`/`frac_pos` indices into the digit strings; the model carries the
not-yet-consumed suffixes instead, which is the same information since the
positions only move forward.  The `IntegerZero` arm consumes the whole
remaining integer string (the source loop pushes the rest as soon as the
minimum digit count is reached, and otherwise runs to the end), then inserts
the zero padding before the non-comma characters just pushed when fewer than
`count` digits were available. -/
def formatWalk (sh : NumericShape) : List FormatToken → List Char →
    List Char → List Char → List Char
  | [], _, _, result => result
  | t :: ts, int_rest, frac_rest, result =>
    match t with
    | FormatToken.integerZero count =>
      let nonComma := (int_rest.filter fun c => !(c == ',')).length
      let res1 := result ++ int_rest
      let res2 := if nonComma < count then
          res1.take (res1.length - nonComma) ++
            List.replicate (count - nonComma) '0' ++
            res1.drop (res1.length - nonComma)
        else res1
      formatWalk sh ts [] frac_rest res2
    | FormatToken.integerHash =>
      match int_rest with
      | [] => formatWalk sh ts [] frac_rest result
      | ch :: rest1 => formatWalk sh ts rest1 frac_rest (result ++ [ch])
    | FormatToken.decimalPoint =>
      formatWalk sh ts int_rest frac_rest
        (if sh.has_decimal_point then result ++ ['.'] else result)
    | FormatToken.decimalZero count =>
      let res1 := result ++ frac_rest.take count ++
        List.replicate (count - frac_rest.length) '0'
      formatWalk sh ts int_rest (frac_rest.drop count) res1
    | FormatToken.thousandSeparator => formatWalk sh ts int_rest frac_rest result
    | FormatToken.percent => formatWalk sh ts int_rest frac_rest (result ++ ['%'])
    | FormatToken.literal s =>
      formatWalk sh ts int_rest frac_rest (result ++ s.toList)
    | _ => formatWalk sh ts int_rest frac_rest result

/-- Numeric body of `format_numeric` on the absolute display value: rounding
to the decimal digit count, integer digits (zero-padded, with thousand
separators when requested), fractional digits, and the token walk.  The
source's `f64` arithmetic is modelled exactly over `ℚ`; every concrete input
used by a theorem below takes the decimal-free path, on which the two agree
digit for digit. -/
def formatNumericAbs (sh : NumericShape) (tokens : List FormatToken)
    (abs_value : ℚ) : List Char :=
  let rounded_value :=
    if sh.has_decimal_point ∧ 0 < sh.total_decimal_zeros then
      (ratRoundNonneg (abs_value * (10 : ℚ) ^ sh.total_decimal_zeros) : ℚ) /
        (10 : ℚ) ^ sh.total_decimal_zeros
    else abs_value
  let int_part : Nat := rounded_value.floor.toNat
  let frac_part : ℚ := rounded_value - rounded_value.floor
  let int_str :=
    if 0 < sh.total_integer_zeros then
      padLeftZeros (natToDecimal int_part) sh.total_integer_zeros
    else natToDecimal int_part
  let int_sep :=
    if sh.has_thousand_separator then add_thousand_separators int_str
    else int_str
  let frac_str :=
    if sh.has_decimal_point ∧ 0 < sh.total_decimal_zeros then
      padLeftZeros
        (natToDecimal
          (ratRoundNonneg (frac_part * (10 : ℚ) ^ sh.total_decimal_zeros)).toNat)
        sh.total_decimal_zeros
    else []
  formatWalk sh tokens int_sep frac_str []

/-- Embedding of `FormatParser::format_numeric` (src/format/parser.rs lines
449-619): percent scaling, then the absolute-value body, then the minus sign
prepended exactly when the display value is negative and the section is the
Negative section. -/
def FormatParser.format_numeric (value : ℚ) (sec : FormatSection) :
    String :=
  if (if (numericShape sec.tokens).has_percent then value * 100 else value)
      < 0 ∧ sec.kind = SectionKind.negative then
    String.mk ('-' :: formatNumericAbs (numericShape sec.tokens)
      sec.tokens
      (ratAbs (if (numericShape sec.tokens).has_percent then value * 100
        else value)))
  else
    String.mk (formatNumericAbs (numericShape sec.tokens) sec.tokens
      (ratAbs (if (numericShape sec.tokens).has_percent then value * 100
        else value)))

/-- Modelled from the spec: chrono's `Duration::days(n)` panics when the
duration exceeds `i64::MAX` milliseconds, i.e. exactly when
|n| > 9223372036854775807 / 86400000 = 106751991167 (106751991167 · 86400 =
9223372036828800 ≤ 9223372036854775 < 106751991168 · 86400).  For |n| < 2^63
the saturating f64-to-i64 cast cannot move `n` across this bound, and beyond
it the source also panics (overflow or out-of-bounds duration). -/
def chronoDurationMaxDays : Int := 106751991167

/-- Modelled from the spec: `NaiveDate::checked_add_signed` returns `None`
exactly when the resulting proleptic-Gregorian date falls outside chrono's
representable range, January 1 of year -262144 through December 31 of year
262143.  This constant is the signed day offset of the range minimum from
the 1899-12-30 epoch used by `format_datetime`. -/
def chronoMinOffset : Int := -96440089

/-- Modelled from the spec: day offset of chrono's maximum date, December 31
of year 262143, from the 1899-12-30 epoch. -/
def chronoMaxOffset : Int := 95052170

/-- Proleptic-Gregorian leap rule on astronomical year numbers (negative
years included), as chrono applies it across its whole range. -/
def isLeapYearInt (y : Int) : Bool :=
  (y % 4 == 0 && y % 100 != 0) || y % 400 == 0

def daysInYearInt (y : Int) : Nat := if isLeapYearInt y then 366 else 365

/-- Year-by-year scan from a starting astronomical year: the year containing
the day `d` days after January 1 of year `y`, and the day-of-year offset. -/
def yearDayGoInt : Nat → Int → Nat → Int × Nat
  | 0, y, d => (y, d)
  | fuel + 1, y, d =>
    if d < daysInYearInt y then (y, d)
    else yearDayGoInt fuel (y + 1) (d - daysInYearInt y)

/-- Date (astronomical year, month, day) of the day `n` days after chrono's
minimum date, January 1 of year -262144; the fuel covers the 524288 years of
chrono's range. -/
def dateFromDaysChrono (n : Nat) : Int × Nat × Nat :=
  let yd := yearDayGoInt 530000 (-262144) n
  let md := monthDayGo 1 yd.2 (monthLengths (isLeapYearInt yd.1))
  (yd.1, md.1, md.2)

/-- Rust's `{:0w}` integer formatting: zero-pad to minimum width `w`, a
minus sign counting toward the width. -/
def rustPadInt (w : Nat) (n : Int) : List Char :=
  if n < 0 then
    let digits := natToDecimal (-n).toNat
    '-' :: (List.replicate (w - 1 - digits.length) '0' ++ digits)
  else
    let digits := natToDecimal n.toNat
    List.replicate (w - digits.length) '0' ++ digits

/-- Embedding of `FormatParser::format_datetime` (src/format/parser.rs lines
343-436): 1900 epoch fixed; `Duration::days(days + 1)` panics — modelled as
`none` — outside chrono's duration range; `checked_add_signed` yields the
overflow `Config` error outside chrono's date range; otherwise the date is
rendered field by field (`{:04}`/`{:02}` via `rustPadInt`, Rust's truncated
`%` on the two-digit year).  `f64::fract` truncates toward zero; a negative
fractional part casts to 0 seconds via `as u32`. -/
def FormatParser.format_datetime (value : ℚ) (sec : FormatSection) :
    Option (Except XlsxToMdError String) :=
  if value.floor + 1 < -chronoDurationMaxDays ∨
      chronoDurationMaxDays < value.floor + 1 then
    Option.none
  else if value.floor + 1 < chronoMinOffset ∨
      chronoMaxOffset < value.floor + 1 then
    some (Except.error (XlsxToMdError.config "Date calculation overflow"))
  else
    let ymd := dateFromDaysChrono (value.floor + 1 - chronoMinOffset).toNat
    let trunc : Int := if value < 0 then -((-value).floor) else value.floor
    let seconds_in_day : Nat := ((value - trunc) * 86400).floor.toNat
    let hours := seconds_in_day / 3600
    let minutes := seconds_in_day % 3600 / 60
    let seconds := seconds_in_day % 60
    let render := sec.tokens.foldl (fun acc t =>
      match t with
      | FormatToken.year count =>
        if 4 ≤ count then acc ++ rustPadInt 4 ymd.1
        else acc ++ rustPadInt 2 (Int.tmod ymd.1 100)
      | FormatToken.month count =>
        if 2 ≤ count then acc ++ pad2 ymd.2.1 else acc ++ natToDecimal ymd.2.1
      | FormatToken.day count =>
        if 2 ≤ count then acc ++ pad2 ymd.2.2 else acc ++ natToDecimal ymd.2.2
      | FormatToken.hour count =>
        if 2 ≤ count then acc ++ pad2 hours else acc ++ natToDecimal hours
      | FormatToken.minute count =>
        if 2 ≤ count then acc ++ pad2 minutes else acc ++ natToDecimal minutes
      | FormatToken.second count =>
        if 2 ≤ count then acc ++ pad2 seconds else acc ++ natToDecimal seconds
      | FormatToken.literal s => acc ++ s.toList
      | _ => acc) []
    some (Except.ok (String.mk render))

/-- Embedding of `FormatParser::format_number` (src/format/parser.rs lines
286-299); `none` is the datetime branch's panic propagating. -/
def FormatParser.format_number (p : FormatParser) (value : ℚ) :
    Option (Except XlsxToMdError String) :=
  let sec := p.select_section value
  if sec.is_datetime then FormatParser.format_datetime value sec
  else if sec.is_numeric then
    some (Except.ok (FormatParser.format_numeric value sec))
  else some (Except.ok (ratToDisplay value))

/-- Embedding of `NumberFormatter::format` (src/formatter.rs lines 300-326):
parse failures (impossible in the source, which always returns `Ok`) and
`format_number` errors both fall back to the value's default rendering, so
the function never returns an error — but a `format_number` panic (`none`)
is not an error value and propagates past the catch. -/
def NumberFormatter.format (value : ℚ) (format_string : Option String) :
    Option (Except XlsxToMdError String) :=
  match format_string with
  | some format_str =>
    match (FormatParser.parse format_str.toList).format_number value with
    | some (Except.ok formatted) => some (Except.ok formatted)
    | some (Except.error _) => some (Except.ok (ratToDisplay value))
    | none => Option.none
  | none => some (Except.ok (ratToDisplay value))

/-! ### C4 — format-string safety -/

/-- C4 counterexample — two clauses of the claim fail.  Empty output: the
format string `","` parses to a numeric section (its only token, the
thousand separator, counts as numeric) that emits no characters during the
token walk, so the non-zero value 5 formats to the empty string.  Panic: the
finite value 2·10^11 under the datetime format `"m"` reaches
`Duration::days` beyond its bound — a panic (modelled `none`) that the
caller's error fallback cannot catch. -/
theorem claim4_counterexample :
    NumberFormatter.format 5 (some ",") = some (Except.ok "") ∧
    ¬((5 : ℚ) = 0) ∧
    NumberFormatter.format 200000000000 (some "m") = Option.none :=
  ⟨by decide, by decide, by decide⟩

/-- C4 amended — away from the panic region (floored value plus one within
chrono's `Duration::days` bound), the number formatter is total: for every
format string it returns `Ok`, falling back to the value's default rendering
when the interpreter errs, so no hard error ever reaches the cell formatter.
Beyond that region a datetime format panics, and the no-empty-output clause
fails even inside it — see the counterexample. -/
theorem claim4_amended (format_string : Option String) (value : ℚ)
    (hlo : -chronoDurationMaxDays ≤ value.floor + 1)
    (hhi : value.floor + 1 ≤ chronoDurationMaxDays) :
    ∃ s : String, NumberFormatter.format value format_string
      = some (Except.ok s) := by
  cases format_string with
  | none => exact ⟨_, rfl⟩
  | some f =>
    have hfn : ∃ r, (FormatParser.parse f.data).format_number value
        = some r := by
      simp only [FormatParser.format_number]
      split
      · unfold FormatParser.format_datetime
        rw [if_neg (by intro h; rcases h with h | h <;> omega)]
        split
        · exact ⟨_, rfl⟩
        · exact ⟨_, rfl⟩
      · split
        · exact ⟨_, rfl⟩
        · exact ⟨_, rfl⟩
    obtain ⟨r, hr⟩ := hfn
    cases r with
    | ok s => exact ⟨s, by simp [NumberFormatter.format, hr]⟩
    | error e =>
      exact ⟨ratToDisplay value, by simp [NumberFormatter.format, hr]⟩

/-- C4 witness — the amended statement applied to the format string `","`
and the value 5. -/
theorem claim4_witness :
    ∃ s : String, NumberFormatter.format 5 (some ",") = some (Except.ok s) :=
  claim4_amended (some ",") 5 (by decide) (by decide)

/-! ### C5 — negative-value formatting -/

theorem ratAbs_neg (q : ℚ) : ratAbs (-q) = ratAbs q := by
  unfold ratAbs
  rcases lt_trichotomy q 0 with h | h | h
  · rw [if_neg (by linarith), if_pos h]
  · subst h
    simp
  · rw [if_pos (by linarith), if_neg (by linarith), neg_neg]

/-- The sign of the value does not influence `format_numeric` unless the
section is the Negative one: the body works on the absolute value and the
minus sign is added only for `SectionKind::Negative`. -/
theorem format_numeric_sign_drop (s : FormatSection) (v : ℚ)
    (hkind : s.kind ≠ SectionKind.negative) :
    FormatParser.format_numeric v s = FormatParser.format_numeric (-v) s := by
  unfold FormatParser.format_numeric
  have hdisp : (if (numericShape s.tokens).has_percent then (-v) * 100
      else (-v)) = -(if (numericShape s.tokens).has_percent then v * 100
      else v) := by
    split <;> ring
  rw [hdisp, ratAbs_neg]
  have hA : ¬((if (numericShape s.tokens).has_percent then v * 100 else v) < 0
      ∧ s.kind = SectionKind.negative) := fun hc => hkind hc.2
  have hB : ¬(-(if (numericShape s.tokens).has_percent then v * 100 else v) < 0
      ∧ s.kind = SectionKind.negative) := fun hc => hkind hc.2
  rw [if_neg hA, if_neg hB]

theorem select_section_single (p : FormatParser) (s0 : FormatSection)
    (h : p.sections = [s0]) (v : ℚ) : p.select_section v = s0 := by
  unfold FormatParser.select_section
  rw [h]
  split_ifs <;> simp

/-- C5 amended — for a negative value: when only one section is present it is
selected for the negative value and the output equals that section's
rendering of the value with NO minus sign prepended (the sign is dropped:
`format_number v = format_number (-v)`); and the Negative section, when
present, prepends `-` unconditionally — also when the section already
contains a minus literal, as the `0;-0` rendering `--123` shows. -/
theorem claim5_amended (p : FormatParser) (v : ℚ) (s0 : FormatSection)
    (hv : v < 0) (hone : p.sections = [s0])
    (hdt : s0.is_datetime = false) (hnum : s0.is_numeric = true)
    (hkind : s0.kind ≠ SectionKind.negative) :
    p.select_section v = s0 ∧
    p.format_number v = p.format_number (-v) ∧
    p.format_number v
      = some (Except.ok (FormatParser.format_numeric v s0)) ∧
    (FormatParser.parse "0;-0".toList).format_number (-123)
      = some (Except.ok "--123") := by
  have hsel := select_section_single p s0 hone v
  have hsel2 := select_section_single p s0 hone (-v)
  have heq1 : p.format_number v
      = some (Except.ok (FormatParser.format_numeric v s0)) := by
    unfold FormatParser.format_number
    rw [hsel]
    simp [hdt, hnum]
  have heq2 : p.format_number (-v)
      = some (Except.ok (FormatParser.format_numeric (-v) s0)) := by
    unfold FormatParser.format_number
    rw [hsel2]
    simp [hdt, hnum]
  refine ⟨hsel, ?_, heq1, by decide⟩
  rw [heq1, heq2]
  exact congrArg (fun r => some (Except.ok r))
    (format_numeric_sign_drop s0 v hkind)

/-- C5 witness — the amended statement applied to the single-section format
`"0"` and the value −123. -/
theorem claim5_witness :
    (FormatParser.parse "0".toList).select_section (-123)
        = FormatSection.mk SectionKind.positive [FormatToken.integerZero 1] ∧
    (FormatParser.parse "0".toList).format_number (-123)
      = (FormatParser.parse "0".toList).format_number (-(-123)) ∧
    (FormatParser.parse "0".toList).format_number (-123)
      = some (Except.ok (FormatParser.format_numeric (-123)
          (FormatSection.mk SectionKind.positive [FormatToken.integerZero 1]))) ∧
    (FormatParser.parse "0;-0".toList).format_number (-123)
      = some (Except.ok "--123") :=
  claim5_amended (FormatParser.parse "0".toList) (-123)
    (FormatSection.mk SectionKind.positive [FormatToken.integerZero 1])
    (by decide) (by decide) (by decide) (by decide) (by decide)

/-- C5 counterexample — the claim says a single-section format renders a
negative value as the section's rendering of |v| with a prepended minus; the
source instead drops the sign entirely: format `"0"` renders −123 as `"123"`,
not `"-123"`. -/
theorem claim5_counterexample :
    (FormatParser.parse "0".toList).format_number (-123)
      = some (Except.ok "123") ∧
    ("123" : String) ≠ "-123" :=
  ⟨by decide, by decide⟩

/-! ### C8 — cell formatting pipeline (src/formatter.rs `CellFormatter`) -/

/-- Formula output mode (src/api.rs `FormulaMode`). -/
inductive FormulaMode where
  | cachedValue
  | formula
deriving DecidableEq, Repr

/-- Conversion configuration (src/builder.rs `ConversionConfig`); only the
fields the cell-formatting path consults are carried. -/
structure ConversionConfig where
  date_format : DateFormat
  formula_mode : FormulaMode
deriving DecidableEq, Repr

/-- Embedding of `CellFormatter::is_date_value` (src/formatter.rs lines
113-149): built-in date format ids 14..=22 and 45..=47, else a
case-insensitive scan of the custom format string for yy/mm/dd/hh (the
source lowercases the whole string; `Char.toLower` agrees on the format
alphabet), else false. -/
def is_date_value (format_id : Option Nat)
    (format_string : Option String) : Bool :=
  (match format_id with
   | some id => (14 ≤ id && id ≤ 22) || (45 ≤ id && id ≤ 47)
   | none => false) ||
  (match format_string with
   | some format_str =>
     let lower := format_str.toList.map Char.toLower
     strContainsSub lower ['y', 'y'] || strContainsSub lower ['m', 'm'] ||
       strContainsSub lower ['d', 'd'] || strContainsSub lower ['h', 'h']
   | none => false)

/-- Embedding of `CellFormatter::escape_markdown` (src/formatter.rs lines
160-164): three sequential replacements, each a per-character expansion. -/
def escape_markdown (s : List Char) : List Char :=
  ((s.flatMap fun c => if c = '\\' then ['\\', '\\'] else [c]).flatMap
    fun c => if c = '|' then ['\\', '|'] else [c]).flatMap
    fun c => if c = '\n' then ['<', 'b', 'r', '>'] else [c]

/-- Embedding of `CellFormatter::format_rich_text` (src/formatter.rs lines
175-192). -/
def format_rich_text (segments : List RichTextSegment) : List Char :=
  segments.flatMap fun seg =>
    let text := escape_markdown seg.text.toList
    if seg.format.bold && seg.format.italic then
      '*' :: '*' :: '*' :: (text ++ ['*', '*', '*'])
    else if seg.format.bold then '*' :: '*' :: (text ++ ['*', '*'])
    else if seg.format.italic then '*' :: (text ++ ['*'])
    else text

/-- Steps 2-6 of `CellFormatter::format_cell`: the value dispatch
(src/formatter.rs lines 62-86).  The number branch's interpreter can panic
(`none`); the date branch's collapse of the same chrono panic into the
overflow error is inherited from `DateFormatter.format` and unexercised by
the claims, whose inputs stay far inside the duration bound. -/
def CellFormatter.format_value (raw_cell : RawCellData)
    (config : ConversionConfig) (is_1904 : Bool) :
    Option (Except XlsxToMdError String) :=
  match raw_cell.value with
  | CellValue.number n =>
    if is_date_value raw_cell.format_id raw_cell.format_string then
      some (DateFormatter.format n config.date_format is_1904)
    else
      NumberFormatter.format n raw_cell.format_string
  | CellValue.string s =>
    match raw_cell.rich_text with
    | some segments => some (Except.ok (String.mk (format_rich_text segments)))
    | none => some (Except.ok (String.mk (escape_markdown s.toList)))
  | CellValue.bool b => some (Except.ok (if b then "TRUE" else "FALSE"))
  | CellValue.error e => some (Except.ok e)
  | CellValue.empty => some (Except.ok "")

/-- Value dispatch followed by the hyperlink wrapping of `format_cell`
(src/formatter.rs lines 88-99): reached only when the step-1 early return
does not fire.  A panic propagates; the `?` on the dispatch propagates an
error value past the wrapping. -/
def CellFormatter.format_cell_body (raw_cell : RawCellData)
    (config : ConversionConfig) (is_1904 : Bool) :
    Option (Except XlsxToMdError String) :=
  (CellFormatter.format_value raw_cell config is_1904).bind fun res =>
    some (res.bind fun formatted_value =>
      match raw_cell.hyperlink with
      | some url =>
        Except.ok ("[" ++ (if formatted_value = "" then url
          else formatted_value) ++ "](" ++ url ++ ")")
      | none => Except.ok formatted_value)

/-- Embedding of `CellFormatter::format_cell` (src/formatter.rs lines
46-100): the step-1 formula-mode early return precedes — and therefore
skips — the hyperlink wrapping. -/
def CellFormatter.format_cell (raw_cell : RawCellData)
    (config : ConversionConfig) (is_1904 : Bool) :
    Option (Except XlsxToMdError String) :=
  if config.formula_mode = FormulaMode.formula then
    match raw_cell.formula with
    | some formula => some (Except.ok formula)
    | none => CellFormatter.format_cell_body raw_cell config is_1904
  else CellFormatter.format_cell_body raw_cell config is_1904

def c8xCell : RawCellData :=
  { coord := CellCoord.new 0 0
    value := CellValue.string "5"
    format_id := Option.none
    format_string := Option.none
    formula := some "=A1"
    hyperlink := some "http://x"
    rich_text := Option.none }

def c8xConfig : ConversionConfig :=
  { date_format := DateFormat.iso8601, formula_mode := FormulaMode.formula }

/-- C8 counterexample — a formula cell carrying a hyperlink, formatted in
formula-text mode: the step-1 early return emits the raw formula text and the
hyperlink wrapping never runs, so the output is `=A1`, not `[=A1](http://x)`
as the claim requires (the claim explicitly includes step 1 in the dispatch
that precedes the wrapping). -/
theorem claim8_counterexample :
    CellFormatter.format_cell c8xCell c8xConfig false
      = some (Except.ok "=A1") ∧
    ("=A1" : String) ≠ "[=A1](http://x)" :=
  ⟨by decide, by decide⟩

/-- C8 amended — the hyperlink wrapping holds whenever the step-1 early
return does not fire: for a cell with a hyperlink, if formula-text mode is
off or the cell has no formula, and the steps-2-6 value dispatch succeeds
with display text `d`, the final output is `[d](url)` with an empty `d`
replaced by the url.  When formula-text mode is on and a formula is present,
the output is the raw formula text, unwrapped. -/
theorem claim8_amended (raw_cell : RawCellData) (config : ConversionConfig)
    (is_1904 : Bool) (url d : String)
    (hurl : raw_cell.hyperlink = some url)
    (hnf : config.formula_mode ≠ FormulaMode.formula ∨
      raw_cell.formula = Option.none)
    (hd : CellFormatter.format_value raw_cell config is_1904
      = some (Except.ok d)) :
    CellFormatter.format_cell raw_cell config is_1904
      = some (Except.ok
          ("[" ++ (if d = "" then url else d) ++ "](" ++ url ++ ")")) := by
  have hbody : CellFormatter.format_cell_body raw_cell config is_1904
      = some (Except.ok
          ("[" ++ (if d = "" then url else d) ++ "](" ++ url ++ ")")) := by
    unfold CellFormatter.format_cell_body
    rw [hd, hurl]
    rfl
  unfold CellFormatter.format_cell
  rcases hnf with hnf | hnf
  · rw [if_neg hnf]
    exact hbody
  · by_cases hfm : config.formula_mode = FormulaMode.formula
    · rw [if_pos hfm, hnf]
      exact hbody
    · rw [if_neg hfm]
      exact hbody

def c8wCell : RawCellData :=
  { coord := CellCoord.new 0 0
    value := CellValue.string "hi"
    format_id := Option.none
    format_string := Option.none
    formula := Option.none
    hyperlink := some "http://x"
    rich_text := Option.none }

def c8wConfig : ConversionConfig :=
  { date_format := DateFormat.iso8601, formula_mode := FormulaMode.cachedValue }

/-- C8 witness — the amended statement applied to a string cell `hi` carrying
the hyperlink `http://x` in cached-value mode. -/
theorem claim8_witness :
    CellFormatter.format_cell c8wCell c8wConfig false
      = some (Except.ok
          ("[" ++ (if ("hi" : String) = "" then "http://x" else "hi")
            ++ "](" ++ "http://x" ++ ")")) :=
  claim8_amended c8wCell c8wConfig false "http://x" "hi" (by decide)
    (Or.inl (by decide)) (by decide)

/-! ### C9 — shared-string resolution (src/parser/workbook.rs) -/

/-- Association-list model of the `HashMap` lookups on the metadata path. -/
def alistLookup {α β : Type} [DecidableEq α] : List (α × β) → α → Option β
  | [], _ => Option.none
  | (k, v) :: rest, key => if k = key then some v else alistLookup rest key

/-- The metadata fields the extraction path consults
(src/parser/metadata.rs `XlsxMetadataParser`): `shared_strings` maps a
shared-string index to its rich-text runs, `cell_string_indices` maps a
sheet name to the per-cell shared-string indices recorded for cells of type
`s` (src/parser/metadata.rs lines 719-737), `hyperlinks` maps a sheet name
to per-cell urls. -/
structure XlsxMetadata where
  shared_strings : List (Nat × List RichTextSegment)
  cell_string_indices : List (String × List ((Nat × Nat) × Nat))
  hyperlinks : List (String × List ((Nat × Nat) × String))

/-- calamine's `Data` cell payload (the arms the source matches; the error
arm's debug rendering is carried as the string itself). -/
inductive CalamineData where
  | int (i : Int)
  | float (f : ℚ)
  | string (s : String)
  | bool (b : Bool)
  | error (e : String)
  | empty

/-- Step 5 of `WorkbookParser::extract_cell_data_with_formula`
(src/parser/workbook.rs lines 404-417): the rich-text lookup chain — sheet
indices, then the cell's index, then the shared-string table; every missing
link yields `none` via `and_then`. -/
def resolve_rich_text (metadata : Option XlsxMetadata) (sheet_name : String)
    (coord : CellCoord) : Option (List RichTextSegment) :=
  match metadata with
  | some md =>
    (alistLookup md.cell_string_indices sheet_name).bind fun sheet_indices =>
      (alistLookup sheet_indices (coord.row, coord.col)).bind fun index =>
        alistLookup md.shared_strings index
  | none => Option.none

/-- Embedding of `WorkbookParser::extract_cell_data_with_formula`
(src/parser/workbook.rs lines 341-428): value conversion, the always-`None`
style lookup (`style_id = None` in the source), the formula-range lookup with
its empty-string filter, the hyperlink lookup, and the rich-text chain.  The
only `return` is the final `Ok`. -/
def extract_cell_data_with_formula (metadata : Option XlsxMetadata)
    (coord : CellCoord) (cell : CalamineData) (sheet_name : String)
    (formula_range : Option (List ((Nat × Nat) × String))) :
    Except XlsxToMdError RawCellData :=
  let value := match cell with
    | CalamineData.int i => CellValue.number (i : ℚ)
    | CalamineData.float f => CellValue.number f
    | CalamineData.string s => CellValue.string s
    | CalamineData.bool b => CellValue.bool b
    | CalamineData.error e => CellValue.error e
    | CalamineData.empty => CellValue.empty
  let formula := match formula_range with
    | some fr => (alistLookup fr (coord.row, coord.col)).bind fun f =>
        if f = "" then Option.none else some f
    | none => Option.none
  let hyperlink := match metadata with
    | some md => (alistLookup md.hyperlinks sheet_name).bind
        fun sheet_links => alistLookup sheet_links (coord.row, coord.col)
    | none => Option.none
  Except.ok
    { coord := coord
      value := value
      format_id := Option.none
      format_string := Option.none
      formula := formula
      hyperlink := hyperlink
      rich_text := resolve_rich_text metadata sheet_name coord }

def c9xMetadata : XlsxMetadata :=
  { shared_strings := []
    cell_string_indices := [("Sheet1", [((0, 0), 5)])]
    hyperlinks := [] }

/-- C9 counterexample — cell (0,0) of Sheet1 records shared-string index 5
but the shared-string table has no entry 5: extraction still returns `Ok`
with the rich-text information silently dropped (`rich_text = none`); no
error is surfaced for the sheet. -/
theorem claim9_counterexample :
    (alistLookup c9xMetadata.cell_string_indices "Sheet1").bind
        (fun sheet_indices => alistLookup sheet_indices (0, 0)) = some 5 ∧
    alistLookup c9xMetadata.shared_strings 5 = Option.none ∧
    extract_cell_data_with_formula (some c9xMetadata) (CellCoord.new 0 0)
        (CalamineData.string "abc") "Sheet1" Option.none
      = Except.ok
          { coord := CellCoord.new 0 0
            value := CellValue.string "abc"
            format_id := Option.none
            format_string := Option.none
            formula := Option.none
            hyperlink := Option.none
            rich_text := Option.none } :=
  ⟨by decide, by decide, by decide⟩

/-- C9 amended — shared-string resolution is never a parse fault: for every
metadata table, coordinate, cell payload, sheet name and formula range,
extraction returns `Ok`, and the cell's rich text is exactly the value of
the lookup chain — `none` (silently dropped) whenever the recorded index is
absent from the shared-string table, rich-text runs otherwise. -/
theorem claim9_amended (metadata : Option XlsxMetadata) (coord : CellCoord)
    (cell : CalamineData) (sheet_name : String)
    (formula_range : Option (List ((Nat × Nat) × String))) :
    ∃ raw : RawCellData,
      extract_cell_data_with_formula metadata coord cell sheet_name
          formula_range = Except.ok raw ∧
      raw.rich_text = resolve_rich_text metadata sheet_name coord :=
  ⟨_, rfl, rfl⟩

end XlsxZero
